import Mathlib

/-!
Verification development for the propcheck property-testing engine.

The definitions below are a shallow embedding of the engine's core:
the splittable xoshiro128** pseudo-random number source, the shrink-tree
data structure, the generator abstraction, and the check-and-shrink
runner.  JavaScript numbers are embedded as exact integers (Int) or
rationals (Rat); the 32-bit coercions performed by the JavaScript
bitwise operators are made explicit through the pattern functions
below.  Lazy sequences are embedded as lists, so possibly-infinite
trees are represented by their finite approximations.
-/

namespace Propcheck

/-- A seed state is a 4-tuple of JavaScript numbers, embedded as integers. -/
abbrev SeedState := Int × Int × Int × Int

/-- The unsigned 32-bit pattern of a JavaScript number (ToUint32). -/
def pat (x : Int) : Nat := (x % (4294967296 : Int)).toNat

/-- Reinterpret an unsigned 32-bit pattern as a signed 32-bit value (ToInt32). -/
def int32 (p : Nat) : Int := if p < 2147483648 then (p : Int) else (p : Int) - 4294967296

/-- JavaScript bitwise xor on numbers. -/
def jsXor (a b : Int) : Int := int32 (pat a ^^^ pat b)

/-- JavaScript left shift on numbers. -/
def jsShl (a : Int) (n : Nat) : Int := int32 ((pat a <<< n) % 4294967296)

/-- JavaScript unsigned (zero-fill) right shift on numbers. -/
def jsShrU (a : Int) (n : Nat) : Int := ((pat a >>> n : Nat) : Int)

/-- JavaScript bitwise or on numbers. -/
def jsOr (a b : Int) : Int := int32 (pat a ||| pat b)

/-- JavaScript Math.imul: 32-bit integer multiplication. -/
def imul (a b : Int) : Int := int32 ((pat a * pat b) % 4294967296)

/-- One round of the 32-bit xoshiro128** generator: returns the next state
and the scrambled output scaled into the closed unit interval, exactly as
the source computes it (division embedded exactly over the rationals). -/
def xoshiro128ss (state : SeedState) : SeedState × Rat :=
  let s0 := state.1
  let s1 := state.2.1
  let s2 := state.2.2.1
  let s3 := state.2.2.2
  let r0 : Int := s0 * 5
  let r : Int := jsOr (jsShl r0 7) (jsShrU r0 25) * 9
  let t : Int := jsShl s0 9
  let s2a := jsXor s2 s0
  let s3a := jsXor s3 s1
  let s1a := jsXor s1 s2a
  let s0a := jsXor s0 s3a
  let s3b := jsOr (jsShl s3a 11) (jsShrU s3a 21)
  ((s0a, s1a, t, s3b), ((pat r : Int) : Rat) / 4294967295)

/-- Steps the state once without producing a pseudo random number. -/
def step (state : SeedState) : SeedState := (xoshiro128ss state).1

/-- The four 32-bit jump polynomials, as unsigned patterns. -/
def j0 : Nat := 0x8764000b
def j1 : Nat := 0xf542d2d3
def j2 : Nat := 0x6fa035c3
def j3 : Nat := 0x77f2db5b

/-- One of the four bit-consuming loops of the jump function: for every set
bit of the polynomial, xor the running state into the accumulator and
advance the running state one step. -/
def jumpLoop (j : Nat) (acc : SeedState) (st : SeedState) : SeedState × SeedState :=
  (List.range 32).foldl
    (fun p b =>
      if j.testBit b then
        ((jsXor p.1.1 p.2.1, jsXor p.1.2.1 p.2.2.1,
          jsXor p.1.2.2.1 p.2.2.2.1, jsXor p.1.2.2.2 p.2.2.2.2),
         step p.2)
      else p)
    (acc, st)

/-- Jumps the state 2^64 iterations forward (as the source intends). -/
def jump (state : SeedState) : SeedState :=
  let p0 := jumpLoop j0 (0, 0, 0, 0) state
  let p1 := jumpLoop j1 p0.1 p0.2
  let p2 := jumpLoop j2 p1.1 p1.2
  let p3 := jumpLoop j3 p2.1 p2.2
  p3.1

/-- Split a seed state into two states. -/
def split (state : SeedState) : SeedState × SeedState := (step state, jump state)

/-- The avalanche mix applied four times by makeSeedState. -/
def iterateH (h : Int) : Int × Int :=
  let h1 := h + jsShl h 13
  let h2 := jsXor h1 (jsShrU h1 7)
  let h3 := h2 + jsShl h2 3
  let h4 := jsXor h3 (jsShrU h3 17)
  let h5 := h4 + jsShl h4 5
  (h5, ((pat h5 : Nat) : Int))

/-- Create a seed state from a key, given as its UTF-16 code units. -/
def makeSeedState (key : List Nat) : SeedState :=
  let h0 : Int := key.foldl (fun h c => imul (jsXor h (c : Int)) 16777619) 2166136261
  let p1 := iterateH h0
  let p2 := iterateH p1.1
  let p3 := iterateH p2.1
  let p4 := iterateH p3.1
  (p1.2, p2.2, p3.2, p4.2)

/-! IEEE-754 binary64 model of number arithmetic, used for nextNum.  A
finite double is an integer multiple of 2^-1074; the fin constructor
carries that exact integer unit count.  The sign of zero is not tracked:
positive and negative zero are numerically equal and no operation below
distinguishes them on the paths this development evaluates.  Every
arithmetic operation rounds its exact result to nearest, ties to even,
overflowing to the infinities, exactly as JavaScript numbers do. -/

/-- A JavaScript number: NaN, a signed infinity (neg true is negative
infinity), or a finite value given as an exact integer count of units of
2^-1074. -/
inductive JsNum where
  | nan
  | inf (neg : Bool)
  | fin (units : Int)
deriving DecidableEq

/-- Floor of the base-two logarithm (zero at zero), by binary search on
the exponent: exact for every magnitude below 2^4096, far beyond any
double computation. -/
def log2n (n : Nat) : Nat :=
  [2048, 1024, 512, 256, 128, 64, 32, 16, 8, 4, 2, 1].foldl
    (fun e b => if 2 ^ (e + b) ≤ n then e + b else e) 0

/-- Round the real number num / den, measured in units of 2^-1074, to the
nearest binary64 value: locate the binade to get the mantissa grid
(spacing 2^(b-52) units at or above 2^53 units, a single unit below,
covering the denormal range), round to that grid with ties to even, and
overflow to infinity at magnitudes of at least 2^1024 (2^2098 units),
IEEE rounding with unbounded exponent followed by the overflow check. -/
def roundQ (num den : Int) : JsNum :=
  if den = 0 then JsNum.nan
  else if num = 0 then JsNum.fin 0
  else
    let s : Bool := xor (decide (num < 0)) (decide (den < 0))
    let a : Nat := num.natAbs
    let d : Nat := den.natAbs
    let g : Nat := if a / d < 2 ^ 53 then 0 else log2n (a / d) - 52
    let D : Nat := d * 2 ^ g
    let q : Nat := a / D
    let r : Nat := a % D
    let m : Nat := if 2 * r < D then q
      else if D < 2 * r then q + 1
      else if q % 2 = 0 then q else q + 1
    let u : Nat := m * 2 ^ g
    if 2 ^ 2098 ≤ u then JsNum.inf s
    else JsNum.fin (if s then -(u : Int) else (u : Int))

/-- JavaScript addition of numbers. -/
def jsAddF : JsNum → JsNum → JsNum
  | JsNum.nan, _ => JsNum.nan
  | _, JsNum.nan => JsNum.nan
  | JsNum.inf s, JsNum.inf t => if s = t then JsNum.inf s else JsNum.nan
  | JsNum.inf s, JsNum.fin _ => JsNum.inf s
  | JsNum.fin _, JsNum.inf t => JsNum.inf t
  | JsNum.fin a, JsNum.fin b => roundQ (a + b) 1

/-- JavaScript subtraction of numbers. -/
def jsSubF : JsNum → JsNum → JsNum
  | JsNum.nan, _ => JsNum.nan
  | _, JsNum.nan => JsNum.nan
  | JsNum.inf s, JsNum.inf t => if s = t then JsNum.nan else JsNum.inf s
  | JsNum.inf s, JsNum.fin _ => JsNum.inf s
  | JsNum.fin _, JsNum.inf t => JsNum.inf (!t)
  | JsNum.fin a, JsNum.fin b => roundQ (a - b) 1

/-- JavaScript division of numbers (a finite value divided by an infinity
is zero; a nonzero finite value divided by zero is a signed infinity,
zero over zero is NaN). -/
def jsDivF : JsNum → JsNum → JsNum
  | JsNum.nan, _ => JsNum.nan
  | _, JsNum.nan => JsNum.nan
  | JsNum.inf _, JsNum.inf _ => JsNum.nan
  | JsNum.inf s, JsNum.fin b => JsNum.inf (xor s (decide (b < 0)))
  | JsNum.fin _, JsNum.inf _ => JsNum.fin 0
  | JsNum.fin a, JsNum.fin b =>
    if b = 0 then (if a = 0 then JsNum.nan else JsNum.inf (decide (a < 0)))
    else roundQ (a * ((2 ^ 1074 : Nat) : Int)) b

/-- JavaScript comparison a <= b, false whenever either side is NaN. -/
def jsLeF : JsNum → JsNum → Bool
  | JsNum.nan, _ => false
  | _, JsNum.nan => false
  | JsNum.inf s, JsNum.inf t => if s = t then true else s
  | JsNum.inf s, JsNum.fin _ => s
  | JsNum.fin _, JsNum.inf t => !t
  | JsNum.fin a, JsNum.fin b => decide (a ≤ b)

/-- The double holding a (safe) integer exactly. -/
def ofIntF (n : Int) : JsNum := JsNum.fin (n * ((2 ^ 1074 : Nat) : Int))

/-- Number.MAX_VALUE, the largest finite double: (2^53 - 1) * 2^971. -/
def dblMaxValue : JsNum := JsNum.fin ((2 ^ 2098 - 2 ^ 2045 : Nat) : Int)

/-- The negation of Number.MAX_VALUE, a legal finite lower bound. -/
def dblMinValue : JsNum := JsNum.fin (-((2 ^ 2098 - 2 ^ 2045 : Nat) : Int))

/-- The scrambled 32-bit output word of one xoshiro128** round: the
ToUint32 the source applies to rotl(s0 * 5, 7) * 9 before dividing. -/
def xoshiroOutPat (state : SeedState) : Nat :=
  pat (jsOr (jsShl (state.1 * 5) 7) (jsShrU (state.1 * 5) 25) * 9)

/-- The generator's number output in double arithmetic: the 32-bit output
word divided by 4294967295. -/
def xoshiroOutF (state : SeedState) : JsNum :=
  jsDivF (ofIntF (xoshiroOutPat state)) (ofIntF 4294967295)

/-- nextNum in double arithmetic, exactly as the source computes it:
minBound + r / (1 / (maxBound - minBound)). -/
def nextNumF (state : SeedState) (minBound maxBound : JsNum) : JsNum :=
  jsAddF minBound (jsDivF (xoshiroOutF state) (jsDivF (ofIntF 1) (jsSubF maxBound minBound)))

/-! Pattern-level model of the generator state transition: the same
functions expressed on unsigned 32-bit words, used to reason about
bit patterns. -/

/-- A quadruple of unsigned 32-bit patterns. -/
abbrev SeedPat := Nat × Nat × Nat × Nat

/-- The pattern quadruple of a seed state. -/
def patQuad (s : SeedState) : SeedPat := (pat s.1, pat s.2.1, pat s.2.2.1, pat s.2.2.2)

/-- Left shift truncated to 32 bits, on patterns. -/
def shl32 (w : Nat) (n : Nat) : Nat := (w <<< n) % 4294967296

/-- The xoshiro128** state transition on patterns. -/
def stepPat (w : SeedPat) : SeedPat :=
  let t := shl32 w.1 9
  let s2a := w.2.2.1 ^^^ w.1
  let s3a := w.2.2.2 ^^^ w.2.1
  let s1a := w.2.1 ^^^ s2a
  let s0a := w.1 ^^^ s3a
  (s0a, s1a, t, shl32 s3a 11 ||| s3a >>> 21)

/-- One jump loop on patterns. -/
def jumpLoopPat (j : Nat) (acc : SeedPat) (st : SeedPat) : SeedPat × SeedPat :=
  (List.range 32).foldl
    (fun p b =>
      if j.testBit b then
        ((p.1.1 ^^^ p.2.1, p.1.2.1 ^^^ p.2.2.1,
          p.1.2.2.1 ^^^ p.2.2.2.1, p.1.2.2.2 ^^^ p.2.2.2.2),
         stepPat p.2)
      else p)
    (acc, st)

/-- The jump function on patterns. -/
def jumpPat (w : SeedPat) : SeedPat :=
  let p0 := jumpLoopPat j0 (0, 0, 0, 0) w
  let p1 := jumpLoopPat j1 p0.1 p0.2
  let p2 := jumpLoopPat j2 p1.1 p1.2
  let p3 := jumpLoopPat j3 p2.1 p2.2
  p3.1

/-- The pattern quadruples of a pair of seed states. -/
def pq2 (p : SeedState × SeedState) : SeedPat × SeedPat := (patQuad p.1, patQuad p.2)


/-! Linear-algebra machinery over GF(2): the state transition and the jump
function act linearly (with respect to xor) on the 128-bit state pattern.
A concrete inverse matrix certifies that a linear map has trivial kernel. -/

/-- Apply the first k columns of a matrix (given as a column function) to the
bit vector x: the xor of the columns selected by the set bits of x. -/
def combine (g : Nat → Nat) : Nat → Nat → Nat
  | 0, _ => 0
  | k + 1, x => combine g k x ^^^ (if x.testBit k then g k else 0)

/-- Column i of a matrix given as a list of columns. -/
def colFn (cols : List Nat) (i : Nat) : Nat := cols.getD i 0

/-- Pack a pattern quadruple into a single 128-bit pattern.  For quadruples
of 32-bit words the four summands are over disjoint bit ranges, so xor
agrees with addition. -/
def pk (w : SeedPat) : Nat := w.1 ^^^ (w.2.1 <<< 32) ^^^ (w.2.2.1 <<< 64) ^^^ (w.2.2.2 <<< 96)

/-- Unpack a 128-bit pattern into its four 32-bit words. -/
def upk (x : Nat) : SeedPat := (x % 4294967296, (x >>> 32) % 4294967296, (x >>> 64) % 4294967296, x >>> 96)

/-- Componentwise xor on pattern quadruples. -/
def xor4 (a b : SeedPat) : SeedPat := (a.1 ^^^ b.1, a.2.1 ^^^ b.2.1, a.2.2.1 ^^^ b.2.2.1, a.2.2.2 ^^^ b.2.2.2)

/-- All four words of the quadruple are 32-bit. -/
def validPat (w : SeedPat) : Prop := w.1 < 4294967296 ∧ w.2.1 < 4294967296 ∧ w.2.2.1 < 4294967296 ∧ w.2.2.2 < 4294967296

/-- The state transition as a map on packed 128-bit patterns. -/
def stepN (x : Nat) : Nat := pk (stepPat (upk x))

/-- The jump function as a map on packed 128-bit patterns. -/
def jumpN (x : Nat) : Nat := pk (jumpPat (upk x))

/-- The xor of the state transition with the identity, on packed patterns. -/
def stepXorId (x : Nat) : Nat := stepN x ^^^ x

/-- The xor of the jump map with the state transition, on packed patterns. -/
def jumpXorStep (x : Nat) : Nat := jumpN x ^^^ stepN x

def stepIdInvCols : List Nat := [
  0x00000800000000000000080100000000, 0x00001000000000000000100200000000, 0x00002000000000000000200400000000, 0x00004000000000000000400800000000,
  0x00008000000000000000801000000000, 0x00010000000000000001002000000000, 0x00020000000000000002004000000000, 0x00040000000000000004008000000000,
  0x00080000000000000008010000000000, 0x00100000000000000010020000000000, 0x00200000000000000020040000000000, 0x00400000000000000040080000000000,
  0x00800000000000000080100000000000, 0x01000000000000000100200000000000, 0x02000000000000000200400000000000, 0x04000000000000000400800000000000,
  0x08000000000000000801000000000000, 0x10000000000000001002000000000000, 0x20000000000000002004000000000000, 0x40000000000000004008000000000000,
  0x80000000000000008010000000000000, 0x00000001000000000020000100000000, 0x00000002000000000040000200000000, 0x00000004000000000080000400000000,
  0x00000008000000000100000800000000, 0x00000010000000000200001000000000, 0x00000020000000000400002000000000, 0x00000040000000000800004000000000,
  0x00000080000000001000008000000000, 0x00000100000000002000010000000000, 0x00000200000000004000020000000000, 0x00000400000000008000040000000000,
  0x00000000080402000000000008040201, 0x00000000100804000000000010080402, 0x00000000201008000000000020100804, 0x00000000402010000000000040201008,
  0x00000000804020000000000080402010, 0x00000000008040000000000000804020, 0x00000000010080000000000001008040, 0x00000000020100000000000002010080,
  0x00000000040200000000000004020100, 0x00000000080400000000000008040200, 0x00000000100800000000000010080400, 0x00000000201000000000000020100800,
  0x00000000402000000000000040201000, 0x00000000804000000000000080402000, 0x00000000008000000000000000804000, 0x00000000010000000000000001008000,
  0x00000000020000000000000002010000, 0x00000000040000000000000004020000, 0x00000000080000000000000008040000, 0x00000000100000000000000010080000,
  0x00000000200000000000000020100000, 0x00000000400000000000000040200000, 0x00000000800000000000000080400000, 0x00000000000000000000000000800000,
  0x00000000000000000000000001000000, 0x00000000000000000000000002000000, 0x00000000000000000000000004000000, 0x00000000000000000000000008000000,
  0x00000000000000000000000010000000, 0x00000000000000000000000020000000, 0x00000000000000000000000040000000, 0x00000000000000000000000080000000,
  0x00000000080402010000000008040201, 0x00000000100804020000000010080402, 0x00000000201008040000000020100804, 0x00000000402010080000000040201008,
  0x00000000804020100000000080402010, 0x00000000008040200000000000804020, 0x00000000010080400000000001008040, 0x00000000020100800000000002010080,
  0x00000000040201000000000004020100, 0x00000000080402000000000008040200, 0x00000000100804000000000010080400, 0x00000000201008000000000020100800,
  0x00000000402010000000000040201000, 0x00000000804020000000000080402000, 0x00000000008040000000000000804000, 0x00000000010080000000000001008000,
  0x00000000020100000000000002010000, 0x00000000040200000000000004020000, 0x00000000080400000000000008040000, 0x00000000100800000000000010080000,
  0x00000000201000000000000020100000, 0x00000000402000000000000040200000, 0x00000000804000000000000080400000, 0x00000000008000000000000000800000,
  0x00000000010000000000000001000000, 0x00000000020000000000000002000000, 0x00000000040000000000000004000000, 0x00000000080000000000000008000000,
  0x00000000100000000000000010000000, 0x00000000200000000000000020000000, 0x00000000400000000000000040000000, 0x00000000800000000000000080000000,
  0x00000001000000000000000100000000, 0x00000002000000000000000200000000, 0x00000004000000000000000400000000, 0x00000008000000000000000800000000,
  0x00000010000000000000001000000000, 0x00000020000000000000002000000000, 0x00000040000000000000004000000000, 0x00000080000000000000008000000000,
  0x00000100000000000000010000000000, 0x00000200000000000000020000000000, 0x00000400000000000000040000000000, 0x00000800000000000000080000000000,
  0x00001000000000000000100000000000, 0x00002000000000000000200000000000, 0x00004000000000000000400000000000, 0x00008000000000000000800000000000,
  0x00010000000000000001000000000000, 0x00020000000000000002000000000000, 0x00040000000000000004000000000000, 0x00080000000000000008000000000000,
  0x00100000000000000010000000000000, 0x00200000000000000020000000000000, 0x00400000000000000040000000000000, 0x00800000000000000080000000000000,
  0x01000000000000000100000000000000, 0x02000000000000000200000000000000, 0x04000000000000000400000000000000, 0x08000000000000000800000000000000,
  0x10000000000000001000000000000000, 0x20000000000000002000000000000000, 0x40000000000000004000000000000000, 0x80000000000000008000000000000000]

def jumpStepInvCols : List Nat := [
  0x9c88e5946d8a5600ac75ba95cf255436, 0x520d34899c04f40079d8a07be36443de, 0x300a2952ef57fa00ff0991251fb1aabc, 0x33dc62ee8b6e860067e701f8f783ccc7,
  0x69487cbbc24f7000e6e5c8c2938c0ea7, 0x680da8c0eeb02400bed19ef2bffa5987, 0x1a6b881b72cace003f3058e5b05a2856, 0xb5bc46d47df68200724b75a531284c49,
  0x03f7d9e3d09e82005c04b3ae6b8830ba, 0xfc20a5430630d400dd1c2dfe7b7c9e7e, 0x42c6abe77cc39c009a3c78028cd63d1b, 0x5c200295b9413e00c67224ecbaf72c9f,
  0x65ba2cb2a05d88006166abee351c8981, 0xafd908ef4524020098ee3e7bf4d74920, 0x4e2e24fec2bdc600111d99b16f28db27, 0x16860c206a186800bd028e26f2375cf5,
  0xd05c9559accd9a00ec8bda5eef6d6d5f, 0x19504e9300a59e000b20df9f3fe178c6, 0xc8a239e6435d6600c1fc01870dfcbaf4, 0x41559a1aa6008a00a7a6d37aca932af6,
  0x4253bf1a2f89a2008e6fc39432cf8ea6, 0x54f6c1876afc0c000555463a25ffe0de, 0x334e8090e5e05a00848dddd63e3499fd, 0x80d5da70ce59b40031ca7ae78a773661,
  0xb1cd2cfd609f08009fda6be21c067621, 0xc4d22ba72faeba005e5c93c97cef4d18, 0xe08c2bf376806a0077df15b0de4751b0, 0x8948e3ac44c2fe00d446de24a6334863,
  0xb7f8b49b2196b20050dcd44b4066344f, 0xebc7d0d576d5ec00a3d9eb178886120c, 0xc8d8646bb3d22e004cedf78c6d20f21b, 0xa26f04ef7674f400e306614c6b4f779a,
  0xdd7f095b1f451600de35913432740d6a, 0xce3b68861a76e000d0c7906b2fd4fc1d, 0x469fc59c1b40e00057dfce53d9057388, 0x56ec6b5b3bc1fa003f5d4ae0af773d70,
  0xff2b9cf516074e00a4f2f3e77eb4e6d4, 0xf2ea487f6643e600b42ee6f259cd7cba, 0x32fa25e3b4ab5800fcd3db31d93c0ae8, 0x440d15ab1d213600fdcae40376e61139,
  0x6174ab668025aa003cb47c444d8c3c40, 0xabb256bc12a4d6004674ed69d51c2421, 0xb75724f902d1de00e553e75a9b37820b, 0x7e62ce630d97fe00267d3710da6907a6,
  0xc5d99fec98bccc000fcaac4106d4e555, 0x8d0b987732a55a00c87dafedffe8f3de, 0x976be4f12295100016351dfd1123a7f4, 0xab0dae42cfb42c00b015dd713432bba3,
  0xf7b857c922449000304a2e02482fd542, 0x9eb423f3feac1a00d507c4f36c0c8089, 0x7def0c474159380022b0f58b7ccf117d, 0x473cc1b29aa3dc0084e363af7585b676,
  0xd12d5cb57643be003f7ffa50d6810474, 0x97f5c6f610c41200997189c9dcda9cb1, 0x46af6717bf8a9400684239872a3710a6, 0x7dd167f820357600442e8261b11fa097,
  0x0bf5d58d6c734a007c997e212e17471f, 0xb1115f73f1348a005341f7189a8eb86e, 0x797e3749f8230a00a8c73bb097533e43, 0xf8a4a14422523800e2f1b6635d0e3d88,
  0x94fe33a2edfe2c0061f0864fe72460d0, 0x1a19c2957af1f400fe53fe0c481e3bc2, 0x6447584af2361800def2dc1b843593e7, 0xe9421ee4e89bc0001d3b839a416965a3,
  0x3c05f65fd0446a01177e59be190fa28b, 0xd12e0e742e3d6202c1f7c9193f0d3b70, 0x44b7b1dfca6d0c04f73f62276a8da070, 0x8989f19819a38608e2e32c15c41de0fd,
  0x0fabb723d5eda21091145250e00b03a7, 0xa37f9a684e9c0020ac81c721563321f3, 0xebaf5f99ce408e4057c900dd655a55ac, 0x12a4fdba99880880a7cc7c18c38e909b,
  0xc14e7704b0763700ad825991214012d5, 0xab0fe54838672c007c9a93020289526b, 0x3091cd514ef5a800afa727b5040168ef, 0x6b5652b697426200a7399eef1606cbff,
  0xbe28bb14b736f20043b00027fb4c5e66, 0xfbc02c33cc557000f5318d40f11952ad, 0x7b5676097c40cc00e5649b758f114a88, 0xf6165cd272313a003e433d67fc67da16,
  0x482add40304f2600b1142a4ab1112248, 0xf9d1187a40da5c0087a2cefe127f560d, 0xb3d71af6eda8fe003b38a717f420ac9c, 0x230ea1d9d26874001546464143cd51ee,
  0xb37100245a8ffe0025cb258f403b21df, 0x4459537801f246009a8badc002086209, 0x9b663121d9131800798ee4cdc8dfc54a, 0x44afbaf6b19e9800bba000da4e101abb,
  0x999b973ecb15ae00283ae9849fb639a5, 0x9d9cfb765453b40073ead95d74f89a45, 0x036c0df33cf80800ea4322357e7c1185, 0x448e3debfb71b6006c11297f7591291c,
  0x9c225c9f1af6ba00e870c3599376ff16, 0x709a95cec6d750002239d6f61abd78fa, 0xdf3eedfc85f9a200d67265178d791b0c, 0x6f0bd23933593400b396fa7a9df44de0,
  0xe17aff05cf017c00c94bc88b2b7bafe1, 0x1f1566f0344b82001130597010d9c76d, 0x02287447d12dec00a0e0ac70b388d3f8, 0xdf659acb22627c00ddbe66fd6b6add8d,
  0xf0802bc6c3eaec0035e6a1a79ebfe573, 0x5195d23728dfe60018af21f30ffe5d49, 0xd9557a3a7aebd600ab1adbacbc665f44, 0x56a9e89184a93e005a06989bb56881a2,
  0xa03add6230539c00913624d56ccc2e95, 0x00bdb1f42ac3f8003aee7c6bd795764a, 0x87c6eda84c2472004af4c4ef9f36eae4, 0x153494d59ad594008144a1ffcc6fcc59,
  0x7bf134f82f8a2e004c7abc66fd98bb33, 0x76cb9444fef00a003d4c02ad0ef1a173, 0xec3dd2f85ed59c00f351c6889e32ed7c, 0x5d1b7290bd8596008e566016c85561b5,
  0xbf938a89120ab600815f0448f93ef70a, 0x67673b89be74460052a70a0d7e73d684, 0xce3c16b1acf5c600198c529c88efbde1, 0x643a606b48c3a80091ad25ee3648e798,
  0x624c5c912cdc40001aa4dfdf96ba25ab, 0xd38c958e1116540003da2409ded2feb8, 0xdd89563666d98c00118cdd4ae2e8d5ec, 0x39fedd0e912bee00ff0e82bbff0fba2c,
  0x936e42b3a666e40055a397a5b1a17eba, 0x2e8da405a7673e0022ab2e45ee76222b, 0x7e123abac0db020046841985e92f2fc6, 0xb42a9cafd1238e0086e09f1c289f1494,
  0x18dc6f3de70896009980451674529fc6, 0x4a83575b9c26a400fc6a28fa52a34338, 0xfb79b5b637cfba004880b90c094c88eb, 0x0649ccdd5bc2f4002ead79e0dc9d2843]

/-- The inverse of stepXorId, given by its certificate columns. -/
def stepIdInv (x : Nat) : Nat := combine (colFn stepIdInvCols) 128 x

/-- The inverse of jumpXorStep, given by its certificate columns. -/
def jumpStepInv (x : Nat) : Nat := combine (colFn jumpStepInvCols) 128 x



/-! The shrink tree: a lazy non-empty rose tree, embedded as a finite
inductive tree (lazy sequences become lists).  Recursions that follow the
lazily evaluated structure are phrased with an explicit fuel argument that
every caller instantiates large enough that it never runs out; this keeps
every definition computable by the kernel. -/

/-- A tree holding one value and an ordered list of child trees. -/
inductive Tree (alpha : Type) where
  | node (value : alpha) (children : List (Tree alpha))

/-- The root value of a tree. -/
def Tree.value {alpha : Type} : Tree alpha → alpha
  | .node v _ => v

/-- The children of a tree. -/
def Tree.children {alpha : Type} : Tree alpha → List (Tree alpha)
  | .node _ cs => cs

/-- Create a single value tree with no branches. -/
def Tree.singleton {alpha : Type} (x : alpha) : Tree alpha := .node x []

/-- Prune all the branches off the node, leaving only the root. -/
def Tree.prune {alpha : Type} (t : Tree alpha) : Tree alpha := Tree.singleton t.value

mutual

/-- Number of nodes of a tree. -/
def Tree.size {alpha : Type} : Tree alpha → Nat
  | .node _ cs => 1 + Tree.sizeList cs

/-- Total number of nodes of a list of trees. -/
def Tree.sizeList {alpha : Type} : List (Tree alpha) → Nat
  | [] => 0
  | t :: ts => Tree.size t + Tree.sizeList ts

end

mutual

/-- Decidable equality of trees. -/
def Tree.decEq {alpha : Type} [DecidableEq alpha] : (a b : Tree alpha) → Decidable (a = b)
  | .node v cs, .node w ds =>
    if h1 : v = w then
      match Tree.decEqList cs ds with
      | isTrue h2 => isTrue (by rw [h1, h2])
      | isFalse h2 => isFalse (by intro h; cases h; exact h2 rfl)
    else isFalse (by intro h; cases h; exact h1 rfl)

/-- Decidable equality of lists of trees. -/
def Tree.decEqList {alpha : Type} [DecidableEq alpha] : (a b : List (Tree alpha)) → Decidable (a = b)
  | [], [] => isTrue rfl
  | [], _ :: _ => isFalse (by simp)
  | _ :: _, [] => isFalse (by simp)
  | a :: as, b :: bs =>
    match Tree.decEq a b, Tree.decEqList as bs with
    | isTrue h1, isTrue h2 => isTrue (by rw [h1, h2])
    | isFalse h1, _ => isFalse (by intro h; cases h; exact h1 rfl)
    | _, isFalse h2 => isFalse (by intro h; cases h; exact h2 rfl)

end

instance {alpha : Type} [DecidableEq alpha] : DecidableEq (Tree alpha) := Tree.decEq

mutual

/-- Monadic bind on trees: replace the root by the root of its image, and
append the image's children after recursively binding the original children. -/
def Tree.concatMap {alpha beta : Type} (f : alpha → Tree beta) : Tree alpha → Tree beta
  | .node v cs => .node (f v).value (Tree.concatMapList f cs ++ (f v).children)

/-- Bind mapped over a list of trees. -/
def Tree.concatMapList {alpha beta : Type} (f : alpha → Tree beta) : List (Tree alpha) → List (Tree beta)
  | [] => []
  | t :: ts => Tree.concatMap f t :: Tree.concatMapList f ts

end

mutual

/-- Depth first iteration of the tree: root first, then each child's full
depth-first sequence, in order. -/
def Tree.depthFirst {alpha : Type} : Tree alpha → List alpha
  | .node v cs => v :: Tree.depthFirstList cs

/-- Depth first iteration of a list of trees. -/
def Tree.depthFirstList {alpha : Type} : List (Tree alpha) → List alpha
  | [] => []
  | t :: ts => Tree.depthFirst t ++ Tree.depthFirstList ts

end

/-- The queue-driven loop of breadth first iteration: dequeue a node, yield
the values of its children while enqueueing them.  One unit of fuel is
spent per dequeue; a tree of n nodes causes exactly n dequeues, so the
caller passes the node count as fuel. -/
def Tree.bfsAux {alpha : Type} : Nat → List (Tree alpha) → List alpha
  | _, [] => []
  | 0, _ :: _ => []
  | fuel + 1, t :: rest => t.children.map Tree.value ++ Tree.bfsAux fuel (rest ++ t.children)

/-- Breadth first iteration of the tree: the root is yielded first, then the
queue loop runs starting from the singleton queue. -/
def Tree.breadthFirst {alpha : Type} (t : Tree alpha) : List alpha :=
  t.value :: Tree.bfsAux (Tree.size t) [t]

/-- Create a tree from an unfold function; the fuel argument bounds the
depth to which the lazily unfolded tree is materialized. -/
def Tree.unfold {alpha : Type} : Nat → (alpha → List alpha) → alpha → Tree alpha
  | 0, _, x => .node x []
  | fuel + 1, unf, x => .node x ((unf x).map (Tree.unfold fuel unf))

/-- Build a forest by unfolding from a value, as the source defines it. -/
def Tree.unfoldForest {alpha : Type} (fuel : Nat) (unf : alpha → List alpha) (x : alpha) : List (Tree alpha) :=
  (unf x).map (Tree.unfold fuel unf)

/-! The generator abstraction: a pure function from size, seed and
iteration index to a shrink tree. -/

/-- A generator of values, defined by its run function. -/
structure Gen (alpha : Type) where
  run : Nat → SeedState → Nat → Tree alpha

/-- Create a constant generator that always produces the same given value. -/
def Gen.const {alpha : Type} (x : alpha) : Gen alpha :=
  ⟨fun _ _ _ => Tree.singleton x⟩

/-- Create a generator from some function of size and seed. -/
def Gen.fromFn {alpha : Type} (f : Nat → SeedState → alpha) : Gen alpha :=
  ⟨fun sz st _ => Tree.singleton (f sz st)⟩

/-- Create a generator aware of the current size. -/
def Gen.sized {alpha : Type} (f : Nat → Gen alpha) : Gen alpha :=
  ⟨fun sz st i => (f sz).run sz st i⟩

/-- Resize the generator to a constant size. -/
def Gen.resize {alpha : Type} (g : Gen alpha) (sz : Nat) : Gen alpha :=
  ⟨fun _ st i => g.run sz st i⟩

/-- Sequence two generators: split the incoming seed, run the first
generator on the first stream, then bind the second over its tree using
the second stream. -/
def Gen.andThen {alpha beta : Type} (g : Gen alpha) (f : alpha → Gen beta) : Gen beta :=
  ⟨fun sz st i =>
    let s0 := (split st).1
    let s1 := (split st).2
    (g.run sz s0 i).concatMap (fun x => (f x).run sz s1 i)⟩

/-- The retry loop of suchThatMaybe: try sizes m through n, giving up with
the undefined marker (none) when the size range is exhausted.  The fuel
argument dominates the recursion depth n + 2 - m of the source. -/
def Gen.tryPred {alpha : Type} (g : Gen alpha) (pred : alpha → Bool) : Nat → Nat → Nat → Gen (Option alpha)
  | 0, _, _ => Gen.const none
  | fuel + 1, m, n =>
    if m > n then Gen.const none
    else (g.resize m).andThen (fun x =>
      if pred x then Gen.const (some x) else Gen.tryPred g pred fuel (m + 1) n)

/-- Filter a generator by a predicate, yielding the undefined marker when no
satisfying value is found while growing the size from n to 2n. -/
def Gen.suchThatMaybe {alpha : Type} (g : Gen alpha) (pred : alpha → Bool) : Gen (Option alpha) :=
  Gen.sized (fun n => Gen.tryPred g pred (n + 2) n (2 * n))


/-! The runner: evaluation of properties over JavaScript values, repeated
generation, and the shrink search. -/

/-- A model of the JavaScript values a property can return or throw. -/
inductive JsValue where
  | undef
  | jsNull
  | bool (b : Bool)
  | num (q : Rat)
  | nan
  | str (s : String)
  | obj (id : Nat)
deriving DecidableEq

/-- JavaScript truthiness. -/
def truthy : JsValue → Bool
  | .undef => false
  | .jsNull => false
  | .bool b => b
  | .num q => q != 0
  | .nan => false
  | .str s => s != ""
  | .obj _ => true

/-- The outcome of invoking a property: a returned value or a thrown one. -/
inductive PropOutcome where
  | ret (v : JsValue)
  | thrown (e : JsValue)
deriving DecidableEq

/-- The result of one evaluation of a property inside the runner. -/
inductive CheckResult where
  | ok
  | fail (exception : Option JsValue)
deriving DecidableEq

/-- Evaluate a property invocation: a thrown value is a failure carrying
that value; a returned value passes exactly when it is truthy or undefined;
any other returned value is a failure carrying no exception. -/
def check (outcome : PropOutcome) : CheckResult :=
  match outcome with
  | .thrown e => .fail (some e)
  | .ret result => if truthy result || result == JsValue.undef then .ok else .fail none

/-- Discriminate a check result. -/
def CheckResult.isOk : CheckResult → Bool
  | .ok => true
  | .fail _ => false

/-- Property check options, with the seed either a key or a literal state. -/
structure PropCheckOpts where
  iterations : Nat
  startIteration : Nat
  startSize : Nat
  maxSize : Nat
  seed : Sum (List Nat) SeedState

/-- The option validation performed when a runner is configured. -/
def validOpts (o : PropCheckOpts) : Prop :=
  0 < o.iterations ∧ 1 ≤ o.startIteration ∧ o.startSize ≤ o.maxSize

/-- The result of a property check run. -/
inductive PropCheckResult (alpha : Type) where
  | pass (iteration : Nat) (size : Nat)
  | failure (args : List (Tree alpha)) (seed : SeedState) (iteration : Nat) (size : Nat)
      (error : Option JsValue)
deriving DecidableEq

/-- Ghost log entry recording, for one executed iteration, the iteration
number, the running seed at its start, the exact running size and the
floored size handed to every generator of that iteration. -/
structure IterLog where
  iteration : Nat
  seedAtStart : SeedState
  qsize : Rat
  flooredSize : Nat
deriving DecidableEq

/-- The per-iteration size increment. -/
def sizeStep (o : PropCheckOpts) : Rat :=
  ((o.maxSize : Rat) - (o.startSize : Rat)) / ((max 1 (o.iterations - 1) : Nat) : Rat)

/-- One iteration's generation loop: split the running seed once per
generator, hand each generator the floored size, its split half and the
zero-based iteration counter; returns the final running seed, the last
split half and the generated trees. -/
def genArgs {alpha : Type} (gens : List (Gen alpha)) (seed : SeedState) (flooredSize : Nat)
    (iteration : Nat) : SeedState × Option SeedState × List (Tree alpha) :=
  gens.foldl
    (fun acc g =>
      let s0 := (split acc.1).1
      let s1 := (split acc.1).2
      (s1, some s0, acc.2.2 ++ [g.run flooredSize s0 (iteration - 1)]))
    (seed, none, [])

/-- The iteration loop of checkProperty, with a ghost log of executed
iterations.  The fuel argument counts the remaining loop entries; callers
pass exactly the number of iterations left to run. -/
def checkPropertyGo {alpha : Type} (prop : List alpha → PropOutcome) (gens : List (Gen alpha))
    (o : PropCheckOpts) : Nat → Nat → SeedState → Rat → SeedState → List IterLog →
    PropCheckResult alpha × List IterLog
  | 0, iteration, _, size, _, log => (.pass (iteration - 1) (⌊size⌋).toNat, log)
  | fuel + 1, iteration, seed, size, lastIterationSeed, log =>
    if iteration ≤ o.iterations then
      match check (prop ((genArgs gens seed (⌊size⌋).toNat iteration).2.2.map Tree.value)) with
      | .fail e =>
        (.failure (genArgs gens seed (⌊size⌋).toNat iteration).2.2 lastIterationSeed iteration
          (⌊size⌋).toNat e, log ++ [⟨iteration, seed, size, (⌊size⌋).toNat⟩])
      | .ok =>
        checkPropertyGo prop gens o fuel (iteration + 1)
          (genArgs gens seed (⌊size⌋).toNat iteration).1
          (if iteration = o.iterations - 1 then (o.maxSize : Rat)
           else min (size + sizeStep o) (o.maxSize : Rat))
          (match (genArgs gens seed (⌊size⌋).toNat iteration).2.1 with
           | some s => s
           | none => lastIterationSeed)
          (log ++ [⟨iteration, seed, size, (⌊size⌋).toNat⟩])
    else (.pass (iteration - 1) (⌊size⌋).toNat, log)

/-- Run a full property check, also returning the ghost iteration log. -/
def checkPropertyAux {alpha : Type} (prop : List alpha → PropOutcome) (gens : List (Gen alpha))
    (o : PropCheckOpts) : PropCheckResult alpha × List IterLog :=
  let seed0 := match o.seed with
    | .inl key => makeSeedState key
    | .inr s => s
  checkPropertyGo prop gens o (o.iterations + 1 - o.startIteration) o.startIteration seed0
    (o.startSize : Rat) seed0 []

/-- Run a full property check. -/
def checkProperty {alpha : Type} (prop : List alpha → PropOutcome) (gens : List (Gen alpha))
    (o : PropCheckOpts) : PropCheckResult alpha :=
  (checkPropertyAux prop gens o).1

/-! The shrink search. -/

/-- Options bounding the shrink search; none models Infinity. -/
structure ShrinkOptions where
  maxShrinks : Option Nat
  maxShrinksPerArgument : Option Nat
deriving DecidableEq

/-- The default shrink options: unlimited total, one hundred per argument. -/
def defaultShrinkOpts : ShrinkOptions := ⟨none, some 100⟩

/-- Minimum of two possibly-infinite bounds. -/
def omin : Option Nat → Option Nat → Option Nat
  | some a, some b => some (min a b)
  | some a, none => some a
  | none, some b => some b
  | none, none => none

/-- Subtraction of a finite amount from a possibly-infinite bound. -/
def osub : Option Nat → Nat → Option Nat
  | some m, s => some (m - s)
  | none, _ => none

/-- Comparison of a count against a possibly-infinite bound. -/
def oGe (l : Nat) : Option Nat → Bool
  | some m => decide (l ≥ m)
  | none => false

/-- The result of shrinking a single argument, with a ghost list of every
argument tuple the property was evaluated on. -/
structure SingleShrinkResult (alpha : Type) where
  shrinks : Nat
  smallestFailingArgs : Option (List alpha)
  evals : List (List alpha)
deriving DecidableEq

/-- The candidate loop of tryShrinkSingle: walk the children of argument i,
substituting each candidate into the pruned copy of the argument tuple;
on a failing candidate, recurse into that candidate's own children with
the remaining budget.  The fuel argument dominates the number of tree
nodes the search can visit; callers pass more than the total node count,
so it never runs out. -/
def tssGo {alpha : Type} (prop : List alpha → PropOutcome) :
    Nat → List (Tree alpha) → Nat → List (Tree alpha) → Option Nat → Nat → SingleShrinkResult alpha
  | 0, _, _, _, _, localShrinks => ⟨localShrinks, none, []⟩
  | fuel + 1, copy, i, cs, budget, localShrinks =>
    match cs with
    | [] => ⟨localShrinks, none, []⟩
    | c :: rest =>
      if oGe localShrinks budget then ⟨localShrinks, none, []⟩
      else
        let copyC := copy.set i c
        let vals := copyC.map Tree.value
        if (check (prop vals)).isOk then
          let r := tssGo prop fuel copy i rest budget (localShrinks + 1)
          ⟨r.shrinks, r.smallestFailingArgs, vals :: r.evals⟩
        else
          let r := tssGo prop fuel (copyC.map Tree.prune) i c.children (osub budget (localShrinks + 1)) 0
          match r.smallestFailingArgs with
          | some s => ⟨localShrinks + 1 + r.shrinks, some s, vals :: r.evals⟩
          | none => ⟨localShrinks + 1 + r.shrinks, some vals, vals :: r.evals⟩

/-- The children of the tree at index i, empty when out of range. -/
def childrenAt {alpha : Type} (argsTree : List (Tree alpha)) (i : Nat) : List (Tree alpha) :=
  match argsTree.get? i with
  | some t => t.children
  | none => []

/-- Try to shrink the single argument at index i, within the given budget. -/
def tryShrinkSingle {alpha : Type} (prop : List alpha → PropOutcome) (argsTree : List (Tree alpha))
    (i : Nat) (budget : Option Nat) : SingleShrinkResult alpha :=
  tssGo prop (Tree.sizeList (childrenAt argsTree i) + 1) (argsTree.map Tree.prune) i
    (childrenAt argsTree i) budget 0

/-- The state of the shrink loop, including the caller-visible argument
array (which the loop mutates) and ghost records of every single-argument
shrink result and every property evaluation. -/
structure ShrinkOutputAux (alpha : Type) where
  shrinks : Nat
  smallestFailingArgs : List alpha
  args : List (Tree alpha)
  singles : List (SingleShrinkResult alpha)
  evals : List (List alpha)

/-- Application of one single-argument shrink result to the loop state:
when a smaller failing tuple was found, record its entry for this
argument and replace the caller-visible tree by a pruned singleton of the
shrunk value; always accumulate the counts and the ghost records. -/
def applySingle {alpha : Type} (st : ShrinkOutputAux alpha) (i : Nat)
    (sr : SingleShrinkResult alpha) : ShrinkOutputAux alpha :=
  match sr.smallestFailingArgs with
  | some sfa =>
    match sfa.get? i with
    | some v =>
      ⟨st.shrinks + sr.shrinks, st.smallestFailingArgs.set i v,
       st.args.set i (Tree.singleton v), st.singles ++ [sr], st.evals ++ sr.evals⟩
    | none =>
      ⟨st.shrinks + sr.shrinks, st.smallestFailingArgs, st.args,
       st.singles ++ [sr], st.evals ++ sr.evals⟩
  | none =>
    ⟨st.shrinks + sr.shrinks, st.smallestFailingArgs, st.args,
     st.singles ++ [sr], st.evals ++ sr.evals⟩

/-- The argument loop of shrink: process arguments left to right, replacing
the entry of every improved argument by a pruned singleton of its shrunk
value, and stopping early once the total budget is exhausted.  The fuel
argument counts the remaining arguments. -/
def shrinkGo {alpha : Type} (prop : List alpha → PropOutcome) (maxS maxPA : Option Nat)
    (n : Nat) : Nat → Nat → ShrinkOutputAux alpha → ShrinkOutputAux alpha
  | 0, _, st => st
  | fuel + 1, i, st =>
    if i < n then
      let st2 := applySingle st i (tryShrinkSingle prop st.args i (omin maxPA (osub maxS st.shrinks)))
      if oGe st2.shrinks maxS then st2 else shrinkGo prop maxS maxPA n fuel (i + 1) st2
    else st

/-- The full shrink search with ghost instrumentation. -/
def shrinkAux {alpha : Type} (prop : List alpha → PropOutcome) (args : List (Tree alpha))
    (options : ShrinkOptions) : ShrinkOutputAux alpha :=
  shrinkGo prop options.maxShrinks options.maxShrinksPerArgument args.length args.length 0
    ⟨0, args.map Tree.value, args, [], []⟩

/-- The result of shrinking a set of arguments. -/
structure ShrinkResult (alpha : Type) where
  shrinks : Nat
  smallestFailingArgs : List alpha
deriving DecidableEq

/-- Find the smallest arguments for which the given failed property still
fails, within the configured budgets. -/
def shrink {alpha : Type} (prop : List alpha → PropOutcome) (args : List (Tree alpha))
    (options : ShrinkOptions) : ShrinkResult alpha :=
  let r := shrinkAux prop args options
  ⟨r.shrinks, r.smallestFailingArgs⟩



/-- A value in the unsigned 32-bit word range. -/
def word32 (x : Int) : Prop := 0 ≤ x ∧ x < 4294967296

/-- A value in the signed 32-bit integer range. -/
def i32 (x : Int) : Prop := -2147483648 ≤ x ∧ x < 2147483648

/-- All four components of a seed state satisfy a predicate. -/
def all4 (p : Int → Prop) (s : SeedState) : Prop := p s.1 ∧ p s.2.1 ∧ p s.2.2.1 ∧ p s.2.2.2

/-- Iterated second-half splitting of a seed, as performed by the retry loop
of suchThatMaybe. -/
def seedChain (st : SeedState) : Nat → SeedState
  | 0 => st
  | k + 1 => (split (seedChain st k)).2

/-! Theorems.  Basic facts about the 32-bit embedding first. -/

theorem pat_lt (x : Int) : pat x < 4294967296 := by
  unfold pat
  omega

theorem int32_i32 (p : Nat) : i32 (int32 p) ∨ (2147483648 ≤ p ∧ int32 p = (p : Int) - 4294967296) := by
  unfold int32 i32
  split <;> omega

theorem pat_int32 (p : Nat) (h : p < 4294967296) : pat (int32 p) = p := by
  unfold pat int32
  split <;> omega

theorem pat_natCast (p : Nat) (h : p < 4294967296) : pat ((p : Nat) : Int) = p := by
  unfold pat
  omega

theorem xor32_lt (a b : Nat) (ha : a < 4294967296) (hb : b < 4294967296) :
    a ^^^ b < 4294967296 := by
  have h1 : a < 2 ^ 32 := by norm_num at ha ⊢; omega
  have h2 : b < 2 ^ 32 := by norm_num at hb ⊢; omega
  have := Nat.xor_lt_two_pow h1 h2
  norm_num at this ⊢
  omega

theorem or32_lt (a b : Nat) (ha : a < 4294967296) (hb : b < 4294967296) :
    a ||| b < 4294967296 := by
  have h1 : a < 2 ^ 32 := by norm_num at ha ⊢; omega
  have h2 : b < 2 ^ 32 := by norm_num at hb ⊢; omega
  have := Nat.or_lt_two_pow h1 h2
  norm_num at this ⊢
  omega

theorem int32_range (p : Nat) (h : p < 4294967296) : i32 (int32 p) := by
  unfold int32 i32
  split <;> omega

theorem pat_jsXor (a b : Int) : pat (jsXor a b) = pat a ^^^ pat b :=
  pat_int32 _ (xor32_lt _ _ (pat_lt a) (pat_lt b))

theorem pat_jsShl (a : Int) (n : Nat) : pat (jsShl a n) = (pat a <<< n) % 4294967296 :=
  pat_int32 _ (Nat.mod_lt _ (by norm_num))

theorem shr_lt (a : Nat) (n : Nat) (h : a < 4294967296) : a >>> n < 4294967296 := by
  rw [Nat.shiftRight_eq_div_pow]
  exact Nat.lt_of_le_of_lt (Nat.div_le_self a (2 ^ n)) h

theorem pat_jsShrU (a : Int) (n : Nat) : pat (jsShrU a n) = pat a >>> n :=
  pat_natCast _ (shr_lt _ _ (pat_lt a))

theorem pat_jsOr (a b : Int) : pat (jsOr a b) = pat a ||| pat b :=
  pat_int32 _ (or32_lt _ _ (pat_lt a) (pat_lt b))

theorem jsXor_i32 (a b : Int) : i32 (jsXor a b) :=
  int32_range _ (xor32_lt _ _ (pat_lt a) (pat_lt b))

theorem jsShl_i32 (a : Int) (n : Nat) : i32 (jsShl a n) :=
  int32_range _ (Nat.mod_lt _ (by norm_num))

theorem jsOr_i32 (a b : Int) : i32 (jsOr a b) :=
  int32_range _ (or32_lt _ _ (pat_lt a) (pat_lt b))

theorem step_i32 (s : SeedState) : all4 i32 (step s) := by
  refine ⟨jsXor_i32 _ _, jsXor_i32 _ _, jsShl_i32 _ _, jsOr_i32 _ _⟩

theorem i32_zero : i32 0 := by unfold i32; omega

theorem jumpLoop_acc_i32 (j : Nat) (l : List Nat) (acc st : SeedState) (h : all4 i32 acc) :
    all4 i32 (l.foldl (fun p b =>
      if j.testBit b then
        ((jsXor p.1.1 p.2.1, jsXor p.1.2.1 p.2.2.1,
          jsXor p.1.2.2.1 p.2.2.2.1, jsXor p.1.2.2.2 p.2.2.2.2),
         step p.2)
      else p) (acc, st)).1 := by
  induction l generalizing acc st with
  | nil => exact h
  | cons b bs ih =>
    simp only [List.foldl_cons]
    by_cases hb : j.testBit b
    · simp only [hb, if_true]
      exact ih _ _ ⟨jsXor_i32 _ _, jsXor_i32 _ _, jsXor_i32 _ _, jsXor_i32 _ _⟩
    · simp only [hb, if_false]
      exact ih _ _ h

theorem jumpLoop_i32 (j : Nat) (acc st : SeedState) (h : all4 i32 acc) :
    all4 i32 (jumpLoop j acc st).1 :=
  jumpLoop_acc_i32 j (List.range 32) acc st h

theorem jump_i32 (s : SeedState) : all4 i32 (jump s) := by
  unfold jump
  exact jumpLoop_i32 _ _ _ (jumpLoop_i32 _ _ _ (jumpLoop_i32 _ _ _ (jumpLoop_i32 _ _ _
    ⟨i32_zero, i32_zero, i32_zero, i32_zero⟩)))

theorem word32_patCast (e : Int) : word32 ((pat e : Nat) : Int) := by
  unfold word32
  have := pat_lt e
  omega

theorem iterateH_word32 (h : Int) : word32 (iterateH h).2 := by
  unfold iterateH
  exact word32_patCast _

theorem makeSeedState_word32 (key : List Nat) : all4 word32 (makeSeedState key) := by
  unfold makeSeedState all4
  exact ⟨iterateH_word32 _, iterateH_word32 _, iterateH_word32 _, iterateH_word32 _⟩

/-- C6 counterexample: the claim asserts every component of the state
returned by step lies in the unsigned 32-bit range, but stepping the
legitimate 32-bit state (0, 0, 0, 2147483648) yields a state whose first
component is the negative number -2147483648. -/
theorem c6_counterexample :
    step ((0 : Int), 0, 0, 2147483648) = (-2147483648, 0, 0, 1024) ∧
    ¬ (0 ≤ (step ((0 : Int), 0, 0, 2147483648)).1) := by
  constructor
  · decide
  · decide

/-- C6 amended: every seed state produced by the public seed operations is a
tuple of four 32-bit components, each a pure function of the input bit
pattern; makeSeedState yields components in the unsigned range, while
step and both components of split yield components in the signed 32-bit
range (so components can be negative, contrary to the unsigned claim).
Purity and freedom from mutation hold by construction in this embedding. -/
theorem c6_amended :
    (∀ key : List Nat, all4 word32 (makeSeedState key)) ∧
    (∀ s : SeedState, all4 i32 (step s)) ∧
    (∀ s : SeedState, all4 i32 ((split s).1) ∧ all4 i32 ((split s).2)) :=
  ⟨makeSeedState_word32, step_i32, fun s => ⟨step_i32 s, jump_i32 s⟩⟩

/-! Range containment of the number generators, claim C7. -/

set_option maxRecDepth 10000 in
/-- C7: the range-containment claim fails in the program's double
arithmetic.  For the legal range [-Number.MAX_VALUE, Number.MAX_VALUE]
(finite doubles with minBound <= maxBound), the subtraction
maxBound - minBound overflows to Infinity, its reciprocal is zero, and
nextNum returns positive Infinity, which is not <= maxBound and hence
lies outside the closed range the claim requires. -/
theorem c7_nextNum_overflow :
    jsLeF dblMinValue dblMaxValue = true ∧
    jsSubF dblMaxValue dblMinValue = JsNum.inf false ∧
    nextNumF ((1 : Int), 2, 3, 4) dblMinValue dblMaxValue = JsNum.inf false ∧
    jsLeF (nextNumF ((1 : Int), 2, 3, 4) dblMinValue dblMaxValue) dblMaxValue = false := by
  decide

/-! Tree unfold literals, claim C9. -/

/-- C9: unfolding a tree from zero with the function taking n to the empty
sequence when n exceeds two and to the pair n+1, n+2 otherwise yields
exactly the stated depth-first and breadth-first sequences.  The unfold
fuel is immaterial past the finite fixed point of this function. -/
theorem c9_tree_unfold_literal :
    Tree.depthFirst (Tree.unfold 9 (fun n => if n > 2 then [] else [n + 1, n + 2]) 0) =
      [0, 1, 2, 3, 4, 3, 2, 3, 4] ∧
    Tree.breadthFirst (Tree.unfold 9 (fun n => if n > 2 then [] else [n + 1, n + 2]) 0) =
      [0, 1, 2, 2, 3, 3, 4, 3, 4] ∧
    Tree.unfold 9 (fun n => if n > 2 then [] else [n + 1, n + 2]) 0 =
      Tree.unfold 5 (fun n => if n > 2 then [] else [n + 1, n + 2]) 0 := by
  refine ⟨by decide, by decide, by decide⟩

/-! Evaluation of a property, claim C1. -/

/-- C1: the evaluation of a property treats a thrown error as a failure with
that error attached, treats a returned value that is undefined or truthy
as a pass, and treats any other returned (defined, falsy) value as a
failure with no attached error. -/
theorem c1_check_trichotomy {alpha : Type} (prop : List alpha → PropOutcome) (args : List alpha) :
    (∀ e, prop args = .thrown e → check (prop args) = .fail (some e)) ∧
    (∀ v, prop args = .ret v → (v = JsValue.undef ∨ truthy v = true) → check (prop args) = .ok) ∧
    (∀ v, prop args = .ret v → v ≠ JsValue.undef → truthy v = false →
      check (prop args) = .fail none) := by
  refine ⟨?_, ?_, ?_⟩
  · intro e he
    rw [he]
    rfl
  · intro v hv hcase
    rw [hv]
    unfold check
    rcases hcase with h | h
    · subst h
      rfl
    · simp [h]
  · intro v hv hne htr
    rw [hv]
    unfold check
    simp [htr, hne]

/-- C1 witness: the trichotomy applied to three concrete properties over an
empty argument list: one that throws, one that returns undefined, and one
that returns false. -/
theorem c1_check_trichotomy_witness :
    check ((fun _ : List Nat => PropOutcome.thrown (JsValue.str "boom")) []) =
      CheckResult.fail (some (JsValue.str "boom")) ∧
    check ((fun _ : List Nat => PropOutcome.ret JsValue.undef) []) = CheckResult.ok ∧
    check ((fun _ : List Nat => PropOutcome.ret (JsValue.bool false)) []) =
      CheckResult.fail none :=
  ⟨(c1_check_trichotomy (fun _ : List Nat => PropOutcome.thrown (JsValue.str "boom")) []).1 _ rfl,
   (c1_check_trichotomy (fun _ : List Nat => PropOutcome.ret JsValue.undef) []).2.1 _ rfl
     (Or.inl rfl),
   (c1_check_trichotomy (fun _ : List Nat => PropOutcome.ret (JsValue.bool false)) []).2.2 _ rfl
     (by decide) (by decide)⟩


/-! Filtering generators, claim C8. -/

theorem depthFirstList_append {alpha : Type} (as bs : List (Tree alpha)) :
    Tree.depthFirstList (as ++ bs) = Tree.depthFirstList as ++ Tree.depthFirstList bs := by
  induction as with
  | nil => rfl
  | cons t ts ih => simp [Tree.depthFirstList, ih]

theorem value_mem_depthFirst {alpha : Type} (t : Tree alpha) : t.value ∈ t.depthFirst := by
  cases t with
  | node v cs => simp [Tree.depthFirst, Tree.value]

theorem depthFirst_eq {alpha : Type} (t : Tree alpha) :
    t.depthFirst = t.value :: Tree.depthFirstList t.children := by
  cases t with
  | node v cs => rfl

theorem concatMap_value {alpha beta : Type} (f : alpha → Tree beta) (t : Tree alpha) :
    (Tree.concatMap f t).value = (f t.value).value := by
  cases t with
  | node v cs => rfl

mutual

theorem df_concatMap_mem {alpha beta : Type} (f : alpha → Tree beta) :
    (t : Tree alpha) → ∀ v, v ∈ (Tree.concatMap f t).depthFirst →
      ∃ x, x ∈ t.depthFirst ∧ v ∈ (f x).depthFirst
  | .node w cs => by
    intro v hv
    simp only [Tree.concatMap, Tree.depthFirst] at hv
    rw [depthFirstList_append] at hv
    rcases List.mem_cons.mp hv with h | h
    · refine ⟨w, value_mem_depthFirst (Tree.node w cs), ?_⟩
      rw [depthFirst_eq (f w)]
      exact List.mem_cons.mpr (Or.inl h)
    · rcases List.mem_append.mp h with h2 | h2
      · obtain ⟨x, hx, hvx⟩ := df_concatMapList_mem f cs v h2
        exact ⟨x, by simp [Tree.depthFirst, hx], hvx⟩
      · refine ⟨w, value_mem_depthFirst (Tree.node w cs), ?_⟩
        rw [depthFirst_eq (f w)]
        exact List.mem_cons.mpr (Or.inr (by simpa [Tree.value] using h2))

theorem df_concatMapList_mem {alpha beta : Type} (f : alpha → Tree beta) :
    (ts : List (Tree alpha)) → ∀ v, v ∈ Tree.depthFirstList (Tree.concatMapList f ts) →
      ∃ x, x ∈ Tree.depthFirstList ts ∧ v ∈ (f x).depthFirst
  | [] => by intro v hv; simp [Tree.concatMapList, Tree.depthFirstList] at hv
  | t :: ts => by
    intro v hv
    simp only [Tree.concatMapList, Tree.depthFirstList] at hv
    rcases List.mem_append.mp hv with h | h
    · obtain ⟨x, hx, hvx⟩ := df_concatMap_mem f t v h
      refine ⟨x, ?_, hvx⟩
      simp only [Tree.depthFirstList]
      exact List.mem_append.mpr (Or.inl hx)
    · obtain ⟨x, hx, hvx⟩ := df_concatMapList_mem f ts v h
      refine ⟨x, ?_, hvx⟩
      simp only [Tree.depthFirstList]
      exact List.mem_append.mpr (Or.inr hx)

end

theorem tryPred_mem {alpha : Type} (g : Gen alpha) (pred : alpha → Bool) :
    ∀ (fuel m n sz : Nat) (st : SeedState) (i : Nat) (v : Option alpha),
      v ∈ ((Gen.tryPred g pred fuel m n).run sz st i).depthFirst →
      (∃ x, v = some x ∧ pred x = true) ∨ v = none := by
  intro fuel
  induction fuel with
  | zero =>
    intro m n sz st i v hv
    simp [Gen.tryPred, Gen.const, Tree.singleton, Tree.depthFirst, Tree.depthFirstList] at hv
    exact Or.inr hv
  | succ fuel ih =>
    intro m n sz st i v hv
    simp only [Gen.tryPred] at hv
    by_cases hmn : m > n
    · simp only [hmn, if_true] at hv
      simp [Gen.const, Tree.singleton, Tree.depthFirst, Tree.depthFirstList] at hv
      exact Or.inr hv
    · simp only [hmn, if_false] at hv
      obtain ⟨x, _, hvx⟩ := df_concatMap_mem _ _ v hv
      by_cases hp : pred x
      · simp only [hp, if_true] at hvx
        simp [Gen.const, Tree.singleton, Tree.depthFirst, Tree.depthFirstList] at hvx
        exact Or.inl ⟨x, hvx, hp⟩
      · simp only [hp, if_false] at hvx
        exact ih (m + 1) n sz _ i v hvx

theorem seedChain_shift (st : SeedState) : ∀ j, seedChain st (j + 1) = seedChain ((split st).2) j := by
  intro j
  induction j with
  | zero => rfl
  | succ j ih =>
    show (split (seedChain st (j + 1))).2 = (split (seedChain ((split st).2) j)).2
    rw [ih]

theorem tryPred_root_none {alpha : Type} (g : Gen alpha) (pred : alpha → Bool) :
    ∀ (fuel m n sz : Nat) (st : SeedState) (i : Nat), n + 2 - m ≤ fuel →
      ((Gen.tryPred g pred fuel m n).run sz st i).value = none →
      ∀ k, m ≤ k → k ≤ n → pred ((g.run k ((split (seedChain st (k - m))).1) i).value) = false := by
  intro fuel
  induction fuel with
  | zero =>
    intro m n sz st i hf _ k hk1 hk2
    omega
  | succ fuel ih =>
    intro m n sz st i hf hroot k hk1 hk2
    simp only [Gen.tryPred] at hroot
    by_cases hmn : m > n
    · omega
    · simp only [hmn, if_false] at hroot
      rw [show ((g.resize m).andThen fun x =>
            if pred x = true then Gen.const (some x) else Gen.tryPred g pred fuel (m + 1) n).run
          = fun sz st i =>
            (((g.resize m).run sz ((split st).1) i).concatMap
              (fun x => ((if pred x = true then Gen.const (some x)
                else Gen.tryPred g pred fuel (m + 1) n) : Gen (Option alpha)).run sz ((split st).2) i))
          from rfl] at hroot
      rw [concatMap_value] at hroot
      by_cases hp : pred (((g.resize m).run sz ((split st).1) i).value)
      · simp only [hp, if_true] at hroot
        simp [Gen.const, Tree.singleton, Tree.value] at hroot
      · simp only [hp, if_false] at hroot
        rcases Nat.eq_or_lt_of_le hk1 with heq | hlt
        · subst heq
          simpa [Gen.resize, seedChain] using hp
        · have hih := ih (m + 1) n sz ((split st).2) i (by omega) hroot k hlt hk2
          have hsh : seedChain st (k - m) = seedChain ((split st).2) (k - (m + 1)) := by
            have hkm : k - m = (k - (m + 1)) + 1 := by omega
            rw [hkm, seedChain_shift]
          rw [hsh]
          exact hih

/-- C8: every value produced by suchThatMaybe, in particular the root of
the returned tree, either satisfies the predicate or is the defined
no-value-found marker; and when the root is the marker, the search did
try every size from the current size n up to 2n (each at its own split
seed along the retry chain) and found the predicate false at each. -/
theorem c8_suchThatMaybe {alpha : Type} (g : Gen alpha) (pred : alpha → Bool)
    (sz : Nat) (st : SeedState) (i : Nat) :
    (∀ v ∈ ((g.suchThatMaybe pred).run sz st i).depthFirst,
      (∃ x, v = some x ∧ pred x = true) ∨ v = none) ∧
    (((g.suchThatMaybe pred).run sz st i).value = none →
      ∀ k, sz ≤ k → k ≤ 2 * sz →
        pred ((g.run k ((split (seedChain st (k - sz))).1) i).value) = false) := by
  constructor
  · intro v hv
    exact tryPred_mem g pred (sz + 2) sz (2 * sz) sz st i v hv
  · intro hroot k hk1 hk2
    exact tryPred_root_none g pred (sz + 2) sz (2 * sz) sz st i (by omega) hroot k hk1 hk2

/-- C8 witness: on the constant generator of the value three with the
predicate asking for a value above five, the root is the marker, the
membership dichotomy holds at the root, and the size-four retry indeed
sampled a value falsifying the predicate. -/
theorem c8_suchThatMaybe_witness :
    ((((Gen.const (3 : Nat)).suchThatMaybe (fun n => decide (n > 5))).run 3 (1, 2, 3, 4) 0).value
      = none) ∧
    ((∃ x, (none : Option Nat) = some x ∧ decide (x > 5) = true) ∨ (none : Option Nat) = none) ∧
    decide ((((Gen.const (3 : Nat)).run 4 ((split (seedChain ((1 : Int), 2, 3, 4) 1)).1) 0).value)
      > 5) = false := by
  refine ⟨by decide, ?_, ?_⟩
  · exact (c8_suchThatMaybe (Gen.const 3) (fun n => decide (n > 5)) 3 (1, 2, 3, 4) 0).1 none
      (by decide)
  · exact (c8_suchThatMaybe (Gen.const 3) (fun n => decide (n > 5)) 3 (1, 2, 3, 4) 0).2
      (by decide) 4 (by decide) (by decide)

/-! The seed reported by a failing check, claim C3. -/

set_option maxRecDepth 8000 in
/-- C3 is contradicted by the code: with a single seed-echoing generator
started from the literal seed (1,2,3,4), a property that passes the first
iteration and fails the second produces a Failure whose seed field is
step (1,2,3,4), the snapshot taken during the previous (passing)
iteration, whereas the claim requires the first half of the split of the
running seed at the start of the failing iteration, namely
step (jump (1,2,3,4)); the two seeds differ. -/
theorem c3_failure_seed_stale :
    checkProperty
        (fun args => PropOutcome.ret (JsValue.bool (decide (args = [step ((1 : Int), 2, 3, 4)]))))
        [Gen.fromFn (fun _ sd => sd)] ⟨2, 1, 3, 10000, Sum.inr ((1 : Int), 2, 3, 4)⟩ =
      PropCheckResult.failure [Tree.singleton (step (jump ((1 : Int), 2, 3, 4)))]
        (step ((1 : Int), 2, 3, 4)) 2 10000 none ∧
    step ((1 : Int), 2, 3, 4) ≠ (split (jump ((1 : Int), 2, 3, 4))).1 := by
  constructor
  · decide
  · decide


/-! The size ramp of the runner, claim C4. -/

theorem sizeStep_nonneg (o : PropCheckOpts) (h3 : o.startSize ≤ o.maxSize) : 0 ≤ sizeStep o := by
  unfold sizeStep
  apply div_nonneg
  · have : (o.startSize : Rat) ≤ (o.maxSize : Rat) := by exact_mod_cast h3
    linarith
  · positivity

theorem min_add_min (a M d : Rat) (hd : 0 ≤ d) : min (min a M + d) M = min (a + d) M := by
  rcases le_total a M with h | h
  · rw [min_eq_left h]
  · rw [min_eq_right h, min_eq_right (by linarith), min_eq_right (by linarith)]

/-- The closed form of the running size at the start of an iteration, while
the ramp has not been clamped. -/
def rampSize (o : PropCheckOpts) (it : Nat) : Rat :=
  min ((o.startSize : Rat) + ((it - o.startIteration : Nat) : Rat) * sizeStep o) (o.maxSize : Rat)

/-- The per-entry property of the iteration log asserted by claim C4. -/
def sizeRampProp (o : PropCheckOpts) (e : IterLog) : Prop :=
  e.flooredSize = (⌊e.qsize⌋).toNat ∧
  e.qsize ≤ (o.maxSize : Rat) ∧
  (e.iteration < o.iterations → e.qsize = rampSize o e.iteration) ∧
  (e.iteration = o.iterations → o.startIteration < o.iterations → e.qsize = (o.maxSize : Rat))

theorem checkPropertyGo_log_mono {alpha : Type} (prop : List alpha → PropOutcome)
    (gens : List (Gen alpha)) (o : PropCheckOpts) :
    ∀ (fuel it : Nat) (seed : SeedState) (size : Rat) (last : SeedState) (log : List IterLog),
      ∀ e ∈ log, e ∈ (checkPropertyGo prop gens o fuel it seed size last log).2 := by
  intro fuel
  induction fuel with
  | zero => intro it seed size last log e he; exact he
  | succ fuel ih =>
    intro it seed size last log e he
    rw [checkPropertyGo]
    by_cases hcond : it ≤ o.iterations
    · rw [if_pos hcond]
      cases check (prop ((genArgs gens seed (⌊size⌋).toNat it).2.2.map Tree.value)) with
      | fail e0 => exact List.mem_append.mpr (Or.inl he)
      | ok => exact ih _ _ _ _ _ e (List.mem_append.mpr (Or.inl he))
    · rw [if_neg hcond]
      exact he

theorem checkPropertyGo_ramp {alpha : Type} (prop : List alpha → PropOutcome)
    (gens : List (Gen alpha)) (o : PropCheckOpts)
    (h2 : 1 ≤ o.startIteration) (h3 : o.startSize ≤ o.maxSize) :
    ∀ (fuel it : Nat) (seed : SeedState) (size : Rat) (last : SeedState) (log : List IterLog),
      o.startIteration ≤ it →
      (it < o.iterations → size = rampSize o it) →
      (it = o.iterations → o.startIteration < o.iterations → size = (o.maxSize : Rat)) →
      size ≤ (o.maxSize : Rat) →
      (∀ e ∈ log, sizeRampProp o e) →
      ∀ e ∈ (checkPropertyGo prop gens o fuel it seed size last log).2, sizeRampProp o e := by
  intro fuel
  induction fuel with
  | zero =>
    intro it seed size last log _ _ _ _ hlog e he
    exact hlog e he
  | succ fuel ih =>
    intro it seed size last log hit hlt heq hle hlog e he
    rw [checkPropertyGo] at he
    by_cases hcond : it ≤ o.iterations
    · rw [if_pos hcond] at he
      have hentry : sizeRampProp o ⟨it, seed, size, (⌊size⌋).toNat⟩ := ⟨rfl, hle, hlt, heq⟩
      have hlog2 : ∀ x ∈ log ++ [(⟨it, seed, size, (⌊size⌋).toNat⟩ : IterLog)], sizeRampProp o x := by
        intro x hx
        rcases List.mem_append.mp hx with hx | hx
        · exact hlog x hx
        · rcases List.mem_singleton.mp hx with rfl
          exact hentry
      revert he
      cases check (prop ((genArgs gens seed (⌊size⌋).toNat it).2.2.map Tree.value)) with
      | fail e0 =>
        intro he
        exact hlog2 e he
      | ok =>
        intro he
        by_cases hclamp : it = o.iterations - 1
        · rw [if_pos hclamp] at he
          have hltnew : it + 1 < o.iterations → (o.maxSize : Rat) = rampSize o (it + 1) := by
            intro hx
            omega
          have heqnew : it + 1 = o.iterations → o.startIteration < o.iterations →
              (o.maxSize : Rat) = (o.maxSize : Rat) := fun _ _ => rfl
          exact ih (it + 1) _ _ _ _ (by omega) hltnew heqnew le_rfl hlog2 e he
        · rw [if_neg hclamp] at he
          have hltnew : it + 1 < o.iterations →
              min (size + sizeStep o) (o.maxSize : Rat) = rampSize o (it + 1) := by
            intro hx
            have hitlt : it < o.iterations := by omega
            rw [hlt hitlt]
            unfold rampSize
            rw [min_add_min _ _ _ (sizeStep_nonneg o h3)]
            have harith : ((it + 1 - o.startIteration : Nat) : Rat)
                = ((it - o.startIteration : Nat) : Rat) + 1 := by
              have h5 : it + 1 - o.startIteration = (it - o.startIteration) + 1 := by omega
              rw [h5]
              push_cast
              ring
            rw [harith]
            ring_nf
          have heqnew : it + 1 = o.iterations → o.startIteration < o.iterations →
              min (size + sizeStep o) (o.maxSize : Rat) = (o.maxSize : Rat) := by
            intro hx _
            exact absurd (by omega : it = o.iterations - 1) hclamp
          exact ih (it + 1) _ _ _ _ (by omega) hltnew heqnew (min_le_right _ _) hlog2 e he
    · rw [if_neg hcond] at he
      exact hlog e he

/-- C4: in every run with valid options, every executed iteration hands each
generator the floor of the running size; the running size never exceeds
maxSize; while the clamp has not fired the size follows the linear ramp
from startSize with the configured increment; and the final iteration
(when the clamp iteration was executed) runs at exactly maxSize. -/
theorem c4_size_ramp {alpha : Type} (prop : List alpha → PropOutcome) (gens : List (Gen alpha))
    (o : PropCheckOpts) (h1 : 0 < o.iterations) (h2 : 1 ≤ o.startIteration)
    (h3 : o.startSize ≤ o.maxSize) :
    ∀ e ∈ (checkPropertyAux prop gens o).2, sizeRampProp o e := by
  unfold checkPropertyAux
  apply checkPropertyGo_ramp prop gens o h2 h3
  · exact le_rfl
  · intro hx
    unfold rampSize
    have h5 : o.startIteration - o.startIteration = 0 := by omega
    rw [h5]
    have h6 : ((0 : Nat) : Rat) = 0 := by norm_num
    rw [h6, zero_mul, add_zero]
    rw [min_eq_left (by exact_mod_cast h3)]
  · intro hx h2lt
    omega
  · exact_mod_cast h3
  · intro e he
    simp at he

/-- C4 witness: on a generator-free run with start size three, max size
fifty and five iterations, the first executed iteration is logged with
running size three, floored size three, and the ramp property holds of
that entry by the theorem. -/
theorem c4_size_ramp_witness :
    sizeRampProp ⟨5, 1, 3, 50, Sum.inr ((1 : Int), 2, 3, 4)⟩
      ⟨1, (1, 2, 3, 4), ((3 : Nat) : Rat), (⌊((3 : Nat) : Rat)⌋).toNat⟩ := by
  apply c4_size_ramp (fun _ => PropOutcome.ret (JsValue.bool true)) ([] : List (Gen Nat))
    ⟨5, 1, 3, 50, Sum.inr ((1 : Int), 2, 3, 4)⟩ (by norm_num) (by norm_num) (by norm_num)
  unfold checkPropertyAux
  rw [show (5 : Nat) + 1 - 1 = 4 + 1 from rfl, checkPropertyGo]
  rw [if_pos (by norm_num)]
  have hchk : check ((fun _ => PropOutcome.ret (JsValue.bool true))
      ((genArgs ([] : List (Gen Nat)) (1, 2, 3, 4) (⌊((3 : Nat) : Rat)⌋).toNat 1).2.2.map
        Tree.value)) = CheckResult.ok := rfl
  rw [hchk]
  apply checkPropertyGo_log_mono
  simp


/-! The shrink search budgets and counts, claims C2 and C10. -/

theorem tssGo_shrinks_evals {alpha : Type} (prop : List alpha → PropOutcome) :
    ∀ (fuel : Nat) (copy : List (Tree alpha)) (i : Nat) (cs : List (Tree alpha))
      (budget : Option Nat) (l : Nat),
      (tssGo prop fuel copy i cs budget l).shrinks
        = l + (tssGo prop fuel copy i cs budget l).evals.length := by
  intro fuel
  induction fuel with
  | zero => intro copy i cs budget l; rfl
  | succ fuel ih =>
    intro copy i cs budget l
    cases cs with
    | nil => rfl
    | cons c rest =>
      simp only [tssGo]
      by_cases hstop : oGe l budget
      · simp [hstop]
      · simp only [hstop, Bool.false_eq_true, if_false]
        by_cases hok : (check (prop ((copy.set i c).map Tree.value))).isOk
        · simp only [hok, if_true]
          have h := ih copy i rest budget (l + 1)
          simp only [List.length_cons]
          omega
        · simp only [hok, Bool.false_eq_true, if_false]
          have h := ih ((copy.set i c).map Tree.prune) i c.children (osub budget (l + 1)) 0
          cases hsf : (tssGo prop fuel ((copy.set i c).map Tree.prune) i c.children
              (osub budget (l + 1)) 0).smallestFailingArgs with
          | some s =>
            simp only [hsf, List.length_cons]
            omega
          | none =>
            simp only [hsf, List.length_cons]
            omega

theorem tssGo_budget {alpha : Type} (prop : List alpha → PropOutcome) :
    ∀ (fuel : Nat) (copy : List (Tree alpha)) (i : Nat) (cs : List (Tree alpha))
      (b : Nat) (l : Nat),
      (tssGo prop fuel copy i cs (some b) l).shrinks ≤ max l b := by
  intro fuel
  induction fuel with
  | zero => intro copy i cs b l; exact le_max_left _ _
  | succ fuel ih =>
    intro copy i cs b l
    cases cs with
    | nil => exact le_max_left _ _
    | cons c rest =>
      simp only [tssGo]
      by_cases hstop : oGe l (some b)
      · simp only [hstop, if_true]
        exact le_max_left _ _
      · have hlb : l < b := by
          simp only [oGe, decide_eq_true_eq] at hstop
          omega
        simp only [hstop, Bool.false_eq_true, if_false]
        by_cases hok : (check (prop ((copy.set i c).map Tree.value))).isOk
        · simp only [hok, if_true]
          have h := ih copy i rest b (l + 1)
          omega
        · simp only [hok, Bool.false_eq_true, if_false]
          have h := ih ((copy.set i c).map Tree.prune) i c.children (b - (l + 1)) 0
          have hsub : osub (some b) (l + 1) = some (b - (l + 1)) := rfl
          rw [hsub]
          cases hsf : (tssGo prop fuel ((copy.set i c).map Tree.prune) i c.children
              (some (b - (l + 1))) 0).smallestFailingArgs with
          | some s => simp only [hsf]; omega
          | none => simp only [hsf]; omega

theorem tssGo_sfa_length {alpha : Type} (prop : List alpha → PropOutcome) :
    ∀ (fuel : Nat) (copy : List (Tree alpha)) (i : Nat) (cs : List (Tree alpha))
      (budget : Option Nat) (l : Nat) (sfa : List alpha),
      (tssGo prop fuel copy i cs budget l).smallestFailingArgs = some sfa →
      sfa.length = copy.length := by
  intro fuel
  induction fuel with
  | zero => intro copy i cs budget l sfa h; simp [tssGo] at h
  | succ fuel ih =>
    intro copy i cs budget l sfa h
    cases cs with
    | nil => simp [tssGo] at h
    | cons c rest =>
      simp only [tssGo] at h
      by_cases hstop : oGe l budget
      · simp [hstop] at h
      · simp only [hstop, Bool.false_eq_true, if_false] at h
        by_cases hok : (check (prop ((copy.set i c).map Tree.value))).isOk
        · simp only [hok, if_true] at h
          exact ih copy i rest budget (l + 1) sfa h
        · simp only [hok, Bool.false_eq_true, if_false] at h
          cases hsf : (tssGo prop fuel ((copy.set i c).map Tree.prune) i c.children
              (osub budget (l + 1)) 0).smallestFailingArgs with
          | some s =>
            simp only [hsf] at h
            cases h
            have := ih ((copy.set i c).map Tree.prune) i c.children (osub budget (l + 1)) 0 sfa hsf
            simpa using this
          | none =>
            simp only [hsf] at h
            cases h
            simp

theorem tssGo_nil_none {alpha : Type} (prop : List alpha → PropOutcome) (fuel : Nat)
    (copy : List (Tree alpha)) (i : Nat) (budget : Option Nat) (l : Nat) :
    (tssGo prop fuel copy i [] budget l).smallestFailingArgs = none := by
  cases fuel <;> rfl

theorem tryShrinkSingle_shrinks_evals {alpha : Type} (prop : List alpha → PropOutcome)
    (argsTree : List (Tree alpha)) (i : Nat) (budget : Option Nat) :
    (tryShrinkSingle prop argsTree i budget).shrinks
      = (tryShrinkSingle prop argsTree i budget).evals.length := by
  unfold tryShrinkSingle
  have := tssGo_shrinks_evals prop (Tree.sizeList (childrenAt argsTree i) + 1)
    (argsTree.map Tree.prune) i (childrenAt argsTree i) budget 0
  omega

theorem tryShrinkSingle_budget {alpha : Type} (prop : List alpha → PropOutcome)
    (argsTree : List (Tree alpha)) (i : Nat) (b : Nat) :
    (tryShrinkSingle prop argsTree i (some b)).shrinks ≤ b := by
  unfold tryShrinkSingle
  have := tssGo_budget prop (Tree.sizeList (childrenAt argsTree i) + 1)
    (argsTree.map Tree.prune) i (childrenAt argsTree i) b 0
  omega

theorem tryShrinkSingle_sfa_length {alpha : Type} (prop : List alpha → PropOutcome)
    (argsTree : List (Tree alpha)) (i : Nat) (budget : Option Nat) (sfa : List alpha)
    (h : (tryShrinkSingle prop argsTree i budget).smallestFailingArgs = some sfa) :
    sfa.length = argsTree.length := by
  unfold tryShrinkSingle at h
  have := tssGo_sfa_length prop (Tree.sizeList (childrenAt argsTree i) + 1)
    (argsTree.map Tree.prune) i (childrenAt argsTree i) budget 0 sfa h
  simpa using this

theorem tryShrinkSingle_some_children {alpha : Type} (prop : List alpha → PropOutcome)
    (argsTree : List (Tree alpha)) (i : Nat) (budget : Option Nat)
    (h : (tryShrinkSingle prop argsTree i budget).smallestFailingArgs.isSome = true) :
    childrenAt argsTree i ≠ [] := by
  intro hnil
  unfold tryShrinkSingle at h
  rw [hnil] at h
  rw [tssGo_nil_none] at h
  simp at h


theorem applySingle_shrinks {alpha : Type} (st : ShrinkOutputAux alpha) (i : Nat)
    (sr : SingleShrinkResult alpha) : (applySingle st i sr).shrinks = st.shrinks + sr.shrinks := by
  unfold applySingle
  split
  · split <;> rfl
  · rfl

theorem applySingle_singles {alpha : Type} (st : ShrinkOutputAux alpha) (i : Nat)
    (sr : SingleShrinkResult alpha) : (applySingle st i sr).singles = st.singles ++ [sr] := by
  unfold applySingle
  split
  · split <;> rfl
  · rfl

theorem applySingle_evals {alpha : Type} (st : ShrinkOutputAux alpha) (i : Nat)
    (sr : SingleShrinkResult alpha) : (applySingle st i sr).evals = st.evals ++ sr.evals := by
  unfold applySingle
  split
  · split <;> rfl
  · rfl

theorem applySingle_args_length {alpha : Type} (st : ShrinkOutputAux alpha) (i : Nat)
    (sr : SingleShrinkResult alpha) : (applySingle st i sr).args.length = st.args.length := by
  unfold applySingle
  split
  · split <;> simp
  · rfl

theorem applySingle_smallest_length {alpha : Type} (st : ShrinkOutputAux alpha) (i : Nat)
    (sr : SingleShrinkResult alpha) :
    (applySingle st i sr).smallestFailingArgs.length = st.smallestFailingArgs.length := by
  unfold applySingle
  split
  · split <;> simp
  · rfl

theorem applySingle_args_get_ne {alpha : Type} (st : ShrinkOutputAux alpha) (i : Nat)
    (sr : SingleShrinkResult alpha) (j : Nat) (h : j ≠ i) :
    (applySingle st i sr).args[j]? = st.args[j]? := by
  unfold applySingle
  split
  · split
    · exact List.getElem?_set_ne (Ne.symm h)
    · rfl
  · rfl

theorem applySingle_smallest_get_ne {alpha : Type} (st : ShrinkOutputAux alpha) (i : Nat)
    (sr : SingleShrinkResult alpha) (j : Nat) (h : j ≠ i) :
    (applySingle st i sr).smallestFailingArgs[j]? = st.smallestFailingArgs[j]? := by
  unfold applySingle
  split
  · split
    · exact List.getElem?_set_ne (Ne.symm h)
    · rfl
  · rfl

theorem shrinkGo_counts {alpha : Type} (prop : List alpha → PropOutcome) (maxS maxPA : Option Nat)
    (n : Nat) : ∀ (fuel i : Nat) (st : ShrinkOutputAux alpha),
    st.shrinks = st.evals.length →
    ((st.singles.map (fun s => s.evals.length)).sum = st.evals.length) →
    (∀ s ∈ st.singles, s.shrinks = s.evals.length) →
    (shrinkGo prop maxS maxPA n fuel i st).shrinks
        = (shrinkGo prop maxS maxPA n fuel i st).evals.length ∧
      (((shrinkGo prop maxS maxPA n fuel i st).singles.map (fun s => s.evals.length)).sum
        = (shrinkGo prop maxS maxPA n fuel i st).evals.length) ∧
      (∀ s ∈ (shrinkGo prop maxS maxPA n fuel i st).singles, s.shrinks = s.evals.length) := by
  intro fuel
  induction fuel with
  | zero => intro i st h1 h2 h3; exact ⟨h1, h2, h3⟩
  | succ fuel ih =>
    intro i st h1 h2 h3
    rw [shrinkGo]
    by_cases hi : i < n
    · rw [if_pos hi]
      have hq1 : (applySingle st i (tryShrinkSingle prop st.args i
          (omin maxPA (osub maxS st.shrinks)))).shrinks
          = (applySingle st i (tryShrinkSingle prop st.args i
          (omin maxPA (osub maxS st.shrinks)))).evals.length := by
        rw [applySingle_shrinks, applySingle_evals, List.length_append, h1,
          tryShrinkSingle_shrinks_evals]
      have hq2 : ((applySingle st i (tryShrinkSingle prop st.args i
          (omin maxPA (osub maxS st.shrinks)))).singles.map (fun s => s.evals.length)).sum
          = (applySingle st i (tryShrinkSingle prop st.args i
          (omin maxPA (osub maxS st.shrinks)))).evals.length := by
        rw [applySingle_singles, applySingle_evals, List.map_append, List.sum_append,
          List.length_append, h2]
        simp
      have hq3 : ∀ s ∈ (applySingle st i (tryShrinkSingle prop st.args i
          (omin maxPA (osub maxS st.shrinks)))).singles, s.shrinks = s.evals.length := by
        rw [applySingle_singles]
        intro s hs
        rcases List.mem_append.mp hs with hs | hs
        · exact h3 s hs
        · rcases List.mem_singleton.mp hs with rfl
          exact tryShrinkSingle_shrinks_evals prop st.args i _
      by_cases hstop : oGe (applySingle st i (tryShrinkSingle prop st.args i
          (omin maxPA (osub maxS st.shrinks)))).shrinks maxS
      · rw [if_pos hstop]
        exact ⟨hq1, hq2, hq3⟩
      · rw [if_neg hstop]
        exact ih (i + 1) _ hq1 hq2 hq3
    · rw [if_neg hi]
      exact ⟨h1, h2, h3⟩

theorem shrinkGo_budget {alpha : Type} (prop : List alpha → PropOutcome) (maxPA : Option Nat)
    (n M : Nat) : ∀ (fuel i : Nat) (st : ShrinkOutputAux alpha),
    st.shrinks ≤ M →
    (shrinkGo prop (some M) maxPA n fuel i st).shrinks ≤ M := by
  intro fuel
  induction fuel with
  | zero => intro i st h; exact h
  | succ fuel ih =>
    intro i st h
    rw [shrinkGo]
    by_cases hi : i < n
    · rw [if_pos hi]
      have hb : ∃ b, omin maxPA (osub (some M) st.shrinks) = some b ∧ b ≤ M - st.shrinks := by
        cases maxPA with
        | none => exact ⟨M - st.shrinks, rfl, le_rfl⟩
        | some P => exact ⟨min P (M - st.shrinks), rfl, min_le_right _ _⟩
      obtain ⟨b, hb1, hb2⟩ := hb
      have hsr : (tryShrinkSingle prop st.args i (omin maxPA (osub (some M) st.shrinks))).shrinks
          ≤ b := by
        rw [hb1]
        exact tryShrinkSingle_budget prop st.args i b
      have hst2 : (applySingle st i (tryShrinkSingle prop st.args i
          (omin maxPA (osub (some M) st.shrinks)))).shrinks ≤ M := by
        rw [applySingle_shrinks]
        omega
      by_cases hstop : oGe (applySingle st i (tryShrinkSingle prop st.args i
          (omin maxPA (osub (some M) st.shrinks)))).shrinks (some M)
      · rw [if_pos hstop]
        exact hst2
      · rw [if_neg hstop]
        exact ih (i + 1) _ hst2
    · rw [if_neg hi]
      exact h

theorem shrinkGo_perarg {alpha : Type} (prop : List alpha → PropOutcome) (maxS : Option Nat)
    (n P : Nat) : ∀ (fuel i : Nat) (st : ShrinkOutputAux alpha),
    (∀ s ∈ st.singles, s.shrinks ≤ P) →
    ∀ s ∈ (shrinkGo prop maxS (some P) n fuel i st).singles, s.shrinks ≤ P := by
  intro fuel
  induction fuel with
  | zero => intro i st h; exact h
  | succ fuel ih =>
    intro i st h
    rw [shrinkGo]
    by_cases hi : i < n
    · rw [if_pos hi]
      have hb : ∃ b, omin (some P) (osub maxS st.shrinks) = some b ∧ b ≤ P := by
        cases maxS with
        | none => exact ⟨P, rfl, le_rfl⟩
        | some M => exact ⟨min P (M - st.shrinks), rfl, min_le_left _ _⟩
      obtain ⟨b, hb1, hb2⟩ := hb
      have hsr : (tryShrinkSingle prop st.args i (omin (some P) (osub maxS st.shrinks))).shrinks
          ≤ P := by
        rw [hb1]
        exact le_trans (tryShrinkSingle_budget prop st.args i b) hb2
      have hall : ∀ s ∈ (applySingle st i (tryShrinkSingle prop st.args i
          (omin (some P) (osub maxS st.shrinks)))).singles, s.shrinks ≤ P := by
        rw [applySingle_singles]
        intro s hs
        rcases List.mem_append.mp hs with hs | hs
        · exact h s hs
        · rcases List.mem_singleton.mp hs with rfl
          exact hsr
      by_cases hstop : oGe (applySingle st i (tryShrinkSingle prop st.args i
          (omin (some P) (osub maxS st.shrinks)))).shrinks maxS
      · rw [if_pos hstop]
        exact hall
      · rw [if_neg hstop]
        exact ih (i + 1) _ hall
    · rw [if_neg hi]
      exact h

theorem applySingle_none {alpha : Type} (st : ShrinkOutputAux alpha) (i : Nat)
    (sr : SingleShrinkResult alpha) (hsf : sr.smallestFailingArgs = none) :
    (applySingle st i sr).args = st.args ∧
    (applySingle st i sr).smallestFailingArgs = st.smallestFailingArgs := by
  unfold applySingle
  rw [hsf]
  exact ⟨rfl, rfl⟩

theorem applySingle_some {alpha : Type} (st : ShrinkOutputAux alpha) (i : Nat)
    (sr : SingleShrinkResult alpha) (sfa : List alpha) (v : alpha)
    (hsf : sr.smallestFailingArgs = some sfa) (hv : sfa.get? i = some v) :
    (applySingle st i sr).args = st.args.set i (Tree.singleton v) ∧
    (applySingle st i sr).smallestFailingArgs = st.smallestFailingArgs.set i v := by
  unfold applySingle
  simp only [hsf]
  simp only [hv]
  exact ⟨by trivial, by trivial⟩

theorem shrinkGo_args_length {alpha : Type} (prop : List alpha → PropOutcome)
    (maxS maxPA : Option Nat) (n : Nat) : ∀ (fuel i : Nat) (st : ShrinkOutputAux alpha),
    (shrinkGo prop maxS maxPA n fuel i st).args.length = st.args.length := by
  intro fuel
  induction fuel with
  | zero => intro i st; rfl
  | succ fuel ih =>
    intro i st
    rw [shrinkGo]
    by_cases hi : i < n
    · rw [if_pos hi]
      by_cases hstop : oGe (applySingle st i (tryShrinkSingle prop st.args i
          (omin maxPA (osub maxS st.shrinks)))).shrinks maxS
      · rw [if_pos hstop, applySingle_args_length]
      · rw [if_neg hstop, ih, applySingle_args_length]
    · rw [if_neg hi]

/-- The frame condition of the shrink loop: already processed slots are
left alone, and every processed slot whose single-argument search found a
smaller failing tuple has had its argument tree replaced by the pruned
singleton of the shrunk value (the corresponding entry of the recorded
smallest failing tuple), whereas a slot whose search found nothing keeps
the caller's original tree. -/
theorem shrinkGo_frame {alpha : Type} (prop : List alpha → PropOutcome) (maxS maxPA : Option Nat)
    (n : Nat) : ∀ (fuel i : Nat) (st : ShrinkOutputAux alpha),
    st.singles.length = i → st.args.length = n → st.smallestFailingArgs.length = n →
    (∀ j, j < i →
      (shrinkGo prop maxS maxPA n fuel i st).args[j]? = st.args[j]? ∧
      (shrinkGo prop maxS maxPA n fuel i st).singles[j]? = st.singles[j]? ∧
      (shrinkGo prop maxS maxPA n fuel i st).smallestFailingArgs[j]?
        = st.smallestFailingArgs[j]?) ∧
    (∀ j, i ≤ j → ∀ s, (shrinkGo prop maxS maxPA n fuel i st).singles[j]? = some s →
      (∀ sfa, s.smallestFailingArgs = some sfa →
        (shrinkGo prop maxS maxPA n fuel i st).args[j]? = (sfa.get? j).map Tree.singleton ∧
        (shrinkGo prop maxS maxPA n fuel i st).smallestFailingArgs[j]? = sfa.get? j ∧
        (∃ t, st.args[j]? = some t ∧ t.children ≠ [])) ∧
      (s.smallestFailingArgs = none →
        (shrinkGo prop maxS maxPA n fuel i st).args[j]? = st.args[j]? ∧
        (shrinkGo prop maxS maxPA n fuel i st).smallestFailingArgs[j]?
          = st.smallestFailingArgs[j]?)) := by
  intro fuel
  induction fuel with
  | zero =>
    intro i st h1 h2 h3
    rw [shrinkGo]
    refine ⟨fun j hj => ⟨rfl, rfl, rfl⟩, fun j hj s hs => ?_⟩
    have hnone : st.singles[j]? = none := List.getElem?_eq_none (by omega)
    rw [hnone] at hs
    exact absurd hs (by simp)
  | succ fuel ih =>
    intro i st h1 h2 h3
    rw [shrinkGo]
    by_cases hi : i < n
    · rw [if_pos hi]
      have hf1 : (applySingle st i (tryShrinkSingle prop st.args i
          (omin maxPA (osub maxS st.shrinks)))).singles.length = i + 1 := by
        rw [applySingle_singles, List.length_append, h1]
        rfl
      have hf2 : (applySingle st i (tryShrinkSingle prop st.args i
          (omin maxPA (osub maxS st.shrinks)))).args.length = n := by
        rw [applySingle_args_length, h2]
      have hf3 : (applySingle st i (tryShrinkSingle prop st.args i
          (omin maxPA (osub maxS st.shrinks)))).smallestFailingArgs.length = n := by
        rw [applySingle_smallest_length, h3]
      have hf4 : ∀ j, j < i → (applySingle st i (tryShrinkSingle prop st.args i
          (omin maxPA (osub maxS st.shrinks)))).singles[j]? = st.singles[j]? := by
        intro j hj
        rw [applySingle_singles]
        exact List.getElem?_append_left (by omega)
      have hf5 : (applySingle st i (tryShrinkSingle prop st.args i
          (omin maxPA (osub maxS st.shrinks)))).singles[i]?
          = some (tryShrinkSingle prop st.args i (omin maxPA (osub maxS st.shrinks))) := by
        rw [applySingle_singles, ← h1]
        exact List.getElem?_concat_length _ _
      -- The behaviour of the processed slot i, by cases on the search result.
      have hslot : ∀ s, s = tryShrinkSingle prop st.args i (omin maxPA (osub maxS st.shrinks)) →
          (∀ sfa, s.smallestFailingArgs = some sfa →
            (applySingle st i s).args[i]? = (sfa.get? i).map Tree.singleton ∧
            (applySingle st i s).smallestFailingArgs[i]? = sfa.get? i ∧
            (∃ t, st.args[i]? = some t ∧ t.children ≠ [])) ∧
          (s.smallestFailingArgs = none →
            (applySingle st i s).args[i]? = st.args[i]? ∧
            (applySingle st i s).smallestFailingArgs[i]? = st.smallestFailingArgs[i]?) := by
        intro s hs
        constructor
        · intro sfa hsf
          have hlen : sfa.length = n := by
            rw [hs] at hsf
            have := tryShrinkSingle_sfa_length prop st.args i _ sfa hsf
            omega
          have hvi : ∃ v, sfa.get? i = some v := by
            rw [List.get?_eq_getElem?]
            have : i < sfa.length := by omega
            exact ⟨sfa[i], by simp [this]⟩
          obtain ⟨v, hv⟩ := hvi
          obtain ⟨ha, hsm⟩ := applySingle_some st i s sfa v hsf hv
          have hchild : ∃ t, st.args[i]? = some t ∧ t.children ≠ [] := by
            have hne : childrenAt st.args i ≠ [] := by
              apply tryShrinkSingle_some_children prop st.args i
                (omin maxPA (osub maxS st.shrinks))
              rw [← hs, hsf]
              rfl
            unfold childrenAt at hne
            rcases hget : st.args.get? i with _ | t
            · rw [hget] at hne
              exact absurd rfl hne
            · rw [hget] at hne
              rw [List.get?_eq_getElem?] at hget
              exact ⟨t, hget, hne⟩
          refine ⟨?_, ?_, hchild⟩
          · rw [ha, hv]
            have : i < st.args.length := by omega
            simp [this]
          · rw [hsm, hv]
            have : i < st.smallestFailingArgs.length := by omega
            simp [this]
        · intro hsf
          obtain ⟨ha, hsm⟩ := applySingle_none st i s hsf
          rw [ha, hsm]
          exact ⟨rfl, rfl⟩
      by_cases hstop : oGe (applySingle st i (tryShrinkSingle prop st.args i
          (omin maxPA (osub maxS st.shrinks)))).shrinks maxS
      · rw [if_pos hstop]
        constructor
        · intro j hj
          exact ⟨applySingle_args_get_ne st i _ j (by omega), hf4 j hj,
            applySingle_smallest_get_ne st i _ j (by omega)⟩
        · intro j hj s hs
          rcases Nat.eq_or_lt_of_le hj with heq | hlt
          · subst heq
            rw [hf5] at hs
            cases hs
            exact hslot _ rfl
          · have hnone : (applySingle st i (tryShrinkSingle prop st.args i
                (omin maxPA (osub maxS st.shrinks)))).singles[j]? = none :=
              List.getElem?_eq_none (by omega)
            rw [hnone] at hs
            exact absurd hs (by simp)
      · rw [if_neg hstop]
        obtain ⟨ihA, ihB⟩ := ih (i + 1) _ hf1 hf2 hf3
        constructor
        · intro j hj
          obtain ⟨ha, hb, hc⟩ := ihA j (by omega)
          exact ⟨by rw [ha, applySingle_args_get_ne st i _ j (by omega)],
            by rw [hb, hf4 j hj],
            by rw [hc, applySingle_smallest_get_ne st i _ j (by omega)]⟩
        · intro j hj s hs
          rcases Nat.eq_or_lt_of_le hj with heq | hlt
          · subst heq
            obtain ⟨ha, hb, hc⟩ := ihA i (by omega)
            rw [hb, hf5] at hs
            cases hs
            obtain ⟨hsome, hnone⟩ := hslot _ rfl
            constructor
            · intro sfa hsf
              obtain ⟨x1, x2, x3⟩ := hsome sfa hsf
              exact ⟨by rw [ha, x1], by rw [hc, x2], x3⟩
            · intro hsf
              obtain ⟨x1, x2⟩ := hnone hsf
              exact ⟨by rw [ha, x1], by rw [hc, x2]⟩
          · obtain ⟨hsome, hnone⟩ := ihB j (by omega) s hs
            constructor
            · intro sfa hsf
              obtain ⟨x1, x2, x3⟩ := hsome sfa hsf
              refine ⟨x1, x2, ?_⟩
              obtain ⟨t, ht, htc⟩ := x3
              rw [applySingle_args_get_ne st i _ j (by omega)] at ht
              exact ⟨t, ht, htc⟩
            · intro hsf
              obtain ⟨x1, x2⟩ := hnone hsf
              exact ⟨by rw [x1, applySingle_args_get_ne st i _ j (by omega)],
                by rw [x2, applySingle_smallest_get_ne st i _ j (by omega)]⟩
    · rw [if_neg hi]
      refine ⟨fun j hj => ⟨rfl, rfl, rfl⟩, fun j hj s hs => ?_⟩
      have hnone : st.singles[j]? = none := List.getElem?_eq_none (by omega)
      rw [hnone] at hs
      exact absurd hs (by simp)


theorem getElemOpt_set_self {alpha : Type} :
    ∀ (l : List alpha) (i : Nat) (a : alpha), i < l.length → (l.set i a)[i]? = some a
  | [], i, a, h => by simp at h
  | b :: l, 0, a, _ => by simp
  | b :: l, i + 1, a, h => by
    have hl : i < l.length := by simpa using h
    simpa using getElemOpt_set_self l i a hl

theorem listExtOpt {alpha : Type} :
    ∀ (l1 l2 : List alpha), (∀ k : Nat, l1[k]? = l2[k]?) → l1 = l2
  | [], [], _ => rfl
  | [], b :: l2, h => by simpa using h 0
  | a :: l1, [], h => by simpa using h 0
  | a :: l1, b :: l2, h => by
    have h0 : a = b := by simpa using h 0
    have ht : l1 = l2 := listExtOpt l1 l2 (fun k => by simpa using h (k + 1))
    rw [h0, ht]

theorem prune_map_value {alpha : Type} :
    ∀ (l : List (Tree alpha)), (l.map Tree.prune).map Tree.value = l.map Tree.value
  | [] => rfl
  | t :: ts => by
    have ht : Tree.value (Tree.prune t) = Tree.value t := rfl
    show Tree.value (Tree.prune t) :: (ts.map Tree.prune).map Tree.value
      = Tree.value t :: ts.map Tree.value
    rw [ht, prune_map_value ts]

theorem mapValue_set {alpha : Type} :
    ∀ (l : List (Tree alpha)) (i : Nat) (c : Tree alpha),
      (l.set i c).map Tree.value = (l.map Tree.value).set i (Tree.value c)
  | [], _, _ => rfl
  | t :: ts, 0, c => rfl
  | t :: ts, i + 1, c => by
    show Tree.value t :: (ts.set i c).map Tree.value
      = Tree.value t :: (ts.map Tree.value).set i (Tree.value c)
    rw [mapValue_set ts i c]

/-- Every smaller failing tuple the single-argument candidate loop returns
is a tuple the property actually fails on. -/
theorem tssGo_sfa_fails {alpha : Type} (prop : List alpha → PropOutcome) :
    ∀ (fuel : Nat) (copy : List (Tree alpha)) (i : Nat) (cs : List (Tree alpha))
      (budget : Option Nat) (l : Nat) (s : List alpha),
      (tssGo prop fuel copy i cs budget l).smallestFailingArgs = some s →
      (check (prop s)).isOk = false := by
  intro fuel
  induction fuel with
  | zero => intro copy i cs budget l s h; simp [tssGo] at h
  | succ fuel ih =>
    intro copy i cs budget l s h
    cases cs with
    | nil => simp [tssGo] at h
    | cons c rest =>
      simp only [tssGo] at h
      by_cases hstop : oGe l budget
      · simp [hstop] at h
      · simp only [hstop, Bool.false_eq_true, if_false] at h
        by_cases hok : (check (prop ((copy.set i c).map Tree.value))).isOk
        · simp only [hok, if_true] at h
          exact ih copy i rest budget (l + 1) s h
        · simp only [hok, Bool.false_eq_true, if_false] at h
          cases hsf : (tssGo prop fuel ((copy.set i c).map Tree.prune) i c.children
              (osub budget (l + 1)) 0).smallestFailingArgs with
          | some s2 =>
            simp only [hsf] at h
            cases h
            exact ih ((copy.set i c).map Tree.prune) i c.children (osub budget (l + 1)) 0 s hsf
          | none =>
            simp only [hsf] at h
            cases h
            simpa using hok

/-- Off the index it shrinks, the tuple returned by the single-argument
candidate loop carries exactly the current values of the argument copy. -/
theorem tssGo_sfa_coords {alpha : Type} (prop : List alpha → PropOutcome) :
    ∀ (fuel : Nat) (copy : List (Tree alpha)) (i : Nat) (cs : List (Tree alpha))
      (budget : Option Nat) (l : Nat) (s : List alpha),
      (tssGo prop fuel copy i cs budget l).smallestFailingArgs = some s →
      ∀ j, j ≠ i → s[j]? = (copy.map Tree.value)[j]? := by
  intro fuel
  induction fuel with
  | zero => intro copy i cs budget l s h; simp [tssGo] at h
  | succ fuel ih =>
    intro copy i cs budget l s h j hj
    cases cs with
    | nil => simp [tssGo] at h
    | cons c rest =>
      simp only [tssGo] at h
      by_cases hstop : oGe l budget
      · simp [hstop] at h
      · simp only [hstop, Bool.false_eq_true, if_false] at h
        by_cases hok : (check (prop ((copy.set i c).map Tree.value))).isOk
        · simp only [hok, if_true] at h
          exact ih copy i rest budget (l + 1) s h j hj
        · simp only [hok, Bool.false_eq_true, if_false] at h
          cases hsf : (tssGo prop fuel ((copy.set i c).map Tree.prune) i c.children
              (osub budget (l + 1)) 0).smallestFailingArgs with
          | some s2 =>
            simp only [hsf] at h
            cases h
            have hco := ih ((copy.set i c).map Tree.prune) i c.children (osub budget (l + 1))
              0 s hsf j hj
            rw [hco, prune_map_value, mapValue_set]
            exact List.getElem?_set_ne (Ne.symm hj)
          | none =>
            simp only [hsf] at h
            cases h
            rw [mapValue_set]
            exact List.getElem?_set_ne (Ne.symm hj)

/-- Every smaller failing tuple reported by a single-argument shrink is a
tuple the property fails on. -/
theorem tryShrinkSingle_sfa_fails {alpha : Type} (prop : List alpha → PropOutcome)
    (argsTree : List (Tree alpha)) (i : Nat) (budget : Option Nat) (s : List alpha)
    (h : (tryShrinkSingle prop argsTree i budget).smallestFailingArgs = some s) :
    (check (prop s)).isOk = false := by
  unfold tryShrinkSingle at h
  exact tssGo_sfa_fails prop _ _ _ _ _ _ s h

/-- Off its own index, the tuple reported by a single-argument shrink
carries exactly the current argument values. -/
theorem tryShrinkSingle_sfa_coords {alpha : Type} (prop : List alpha → PropOutcome)
    (argsTree : List (Tree alpha)) (i : Nat) (budget : Option Nat) (s : List alpha)
    (h : (tryShrinkSingle prop argsTree i budget).smallestFailingArgs = some s)
    (j : Nat) (hj : j ≠ i) : s[j]? = (argsTree.map Tree.value)[j]? := by
  unfold tryShrinkSingle at h
  have hco := tssGo_sfa_coords prop _ _ _ _ _ _ s h j hj
  rw [hco, prune_map_value]

/-- Every improving single-argument result recorded by the shrink loop
holds a tuple the property fails on. -/
theorem shrinkGo_single_fails {alpha : Type} (prop : List alpha → PropOutcome)
    (maxS maxPA : Option Nat) (n : Nat) : ∀ (fuel i : Nat) (st : ShrinkOutputAux alpha),
    (∀ s ∈ st.singles, ∀ t, s.smallestFailingArgs = some t → (check (prop t)).isOk = false) →
    ∀ s ∈ (shrinkGo prop maxS maxPA n fuel i st).singles, ∀ t,
      s.smallestFailingArgs = some t → (check (prop t)).isOk = false := by
  intro fuel
  induction fuel with
  | zero => intro i st h; exact h
  | succ fuel ih =>
    intro i st h
    rw [shrinkGo]
    by_cases hi : i < n
    · rw [if_pos hi]
      have hall : ∀ s ∈ (applySingle st i (tryShrinkSingle prop st.args i
          (omin maxPA (osub maxS st.shrinks)))).singles, ∀ t,
          s.smallestFailingArgs = some t → (check (prop t)).isOk = false := by
        rw [applySingle_singles]
        intro s hs t hsf
        rcases List.mem_append.mp hs with hs | hs
        · exact h s hs t hsf
        · rcases List.mem_singleton.mp hs with rfl
          exact tryShrinkSingle_sfa_fails prop st.args i _ t hsf
      by_cases hstop : oGe (applySingle st i (tryShrinkSingle prop st.args i
          (omin maxPA (osub maxS st.shrinks)))).shrinks maxS
      · rw [if_pos hstop]
        exact hall
      · rw [if_neg hstop]
        exact ih (i + 1) _ hall
    · rw [if_neg hi]
      exact h

/-- A slot the shrink loop never processed (no recorded single-argument
result) keeps its entry of the running smallest-failing tuple. -/
theorem shrinkGo_unprocessed {alpha : Type} (prop : List alpha → PropOutcome)
    (maxS maxPA : Option Nat) (n : Nat) : ∀ (fuel i : Nat) (st : ShrinkOutputAux alpha),
    st.singles.length = i → st.args.length = n → st.smallestFailingArgs.length = n →
    ∀ j : Nat, (shrinkGo prop maxS maxPA n fuel i st).singles[j]? = none →
      (shrinkGo prop maxS maxPA n fuel i st).smallestFailingArgs[j]?
        = st.smallestFailingArgs[j]? := by
  intro fuel
  induction fuel with
  | zero => intro i st h1 h2 h3 j hj; rfl
  | succ fuel ih =>
    intro i st h1 h2 h3 j hj
    rw [shrinkGo] at hj ⊢
    by_cases hi : i < n
    · rw [if_pos hi] at hj ⊢
      have hf5 : (applySingle st i (tryShrinkSingle prop st.args i
          (omin maxPA (osub maxS st.shrinks)))).singles[i]?
          = some (tryShrinkSingle prop st.args i (omin maxPA (osub maxS st.shrinks))) := by
        rw [applySingle_singles, ← h1]
        exact List.getElem?_concat_length _ _
      by_cases hstop : oGe (applySingle st i (tryShrinkSingle prop st.args i
          (omin maxPA (osub maxS st.shrinks)))).shrinks maxS
      · rw [if_pos hstop] at hj ⊢
        have hji : j ≠ i := by
          intro he
          rw [he, hf5] at hj
          exact absurd hj (by simp)
        exact applySingle_smallest_get_ne st i _ j hji
      · rw [if_neg hstop] at hj ⊢
        have hf1 : (applySingle st i (tryShrinkSingle prop st.args i
            (omin maxPA (osub maxS st.shrinks)))).singles.length = i + 1 := by
          rw [applySingle_singles, List.length_append, h1]
          rfl
        have hf2 : (applySingle st i (tryShrinkSingle prop st.args i
            (omin maxPA (osub maxS st.shrinks)))).args.length = n := by
          rw [applySingle_args_length, h2]
        have hf3 : (applySingle st i (tryShrinkSingle prop st.args i
            (omin maxPA (osub maxS st.shrinks)))).smallestFailingArgs.length = n := by
          rw [applySingle_smallest_length, h3]
        have hfr := shrinkGo_frame prop maxS maxPA n fuel (i + 1) _ hf1 hf2 hf3
        have hji : j ≠ i := by
          intro he
          obtain ⟨-, hb, -⟩ := hfr.1 i (by omega)
          rw [he, hb, hf5] at hj
          exact absurd hj (by simp)
        rw [ih (i + 1) _ hf1 hf2 hf3 j hj]
        exact applySingle_smallest_get_ne st i _ j hji
    · rw [if_neg hi] at hj ⊢

/-- The shrink loop reports the best failing tuple found so far: the
running smallest-failing tuple always mirrors the values of the running
argument array, and on return it is either untouched (no improvement was
kept) or a tuple the property fails on. -/
theorem shrinkGo_reported {alpha : Type} (prop : List alpha → PropOutcome)
    (maxS maxPA : Option Nat) (n : Nat) : ∀ (fuel i : Nat) (st : ShrinkOutputAux alpha),
    st.args.length = n → st.args.map Tree.value = st.smallestFailingArgs →
    (shrinkGo prop maxS maxPA n fuel i st).args.map Tree.value
        = (shrinkGo prop maxS maxPA n fuel i st).smallestFailingArgs ∧
    ((shrinkGo prop maxS maxPA n fuel i st).smallestFailingArgs = st.smallestFailingArgs ∨
      (check (prop (shrinkGo prop maxS maxPA n fuel i st).smallestFailingArgs)).isOk
        = false) := by
  intro fuel
  induction fuel with
  | zero => intro i st h2 hq; exact ⟨hq, Or.inl rfl⟩
  | succ fuel ih =>
    intro i st h2 hq
    rw [shrinkGo]
    by_cases hi : i < n
    · rw [if_pos hi]
      have hst2 : (applySingle st i (tryShrinkSingle prop st.args i
            (omin maxPA (osub maxS st.shrinks)))).args.map Tree.value
            = (applySingle st i (tryShrinkSingle prop st.args i
            (omin maxPA (osub maxS st.shrinks)))).smallestFailingArgs ∧
          ((applySingle st i (tryShrinkSingle prop st.args i
            (omin maxPA (osub maxS st.shrinks)))).smallestFailingArgs
              = st.smallestFailingArgs ∨
            (check (prop (applySingle st i (tryShrinkSingle prop st.args i
            (omin maxPA (osub maxS st.shrinks)))).smallestFailingArgs)).isOk = false) := by
        cases hsf : (tryShrinkSingle prop st.args i
            (omin maxPA (osub maxS st.shrinks))).smallestFailingArgs with
        | none =>
          obtain ⟨ha, hsm⟩ := applySingle_none st i _ hsf
          rw [ha, hsm]
          exact ⟨hq, Or.inl rfl⟩
        | some sfa =>
          have hlen : sfa.length = st.args.length :=
            tryShrinkSingle_sfa_length prop st.args i _ sfa hsf
          have hlq : st.smallestFailingArgs.length = st.args.length := by
            rw [← hq, List.length_map]
          have hvi : ∃ v, sfa.get? i = some v := by
            rw [List.get?_eq_getElem?]
            have hlt : i < sfa.length := by omega
            exact ⟨sfa[i], by simp [hlt]⟩
          obtain ⟨v, hv⟩ := hvi
          obtain ⟨ha, hsm⟩ := applySingle_some st i _ sfa v hsf hv
          have hv2 : sfa[i]? = some v := by
            rw [← List.get?_eq_getElem?]
            exact hv
          have hsme : st.smallestFailingArgs.set i v = sfa := by
            apply listExtOpt
            intro k
            by_cases hk : k = i
            · subst hk
              rw [getElemOpt_set_self st.smallestFailingArgs k v (by omega)]
              exact hv2.symm
            · rw [List.getElem?_set_ne (Ne.symm hk)]
              have hco := tryShrinkSingle_sfa_coords prop st.args i _ sfa hsf k hk
              rw [hco, hq]
          have hsv : Tree.value (Tree.singleton v) = v := rfl
          constructor
          · rw [ha, hsm, mapValue_set, hsv, hq]
          · refine Or.inr ?_
            rw [hsm, hsme]
            exact tryShrinkSingle_sfa_fails prop st.args i _ sfa hsf
      obtain ⟨hq2, hp2⟩ := hst2
      by_cases hstop : oGe (applySingle st i (tryShrinkSingle prop st.args i
          (omin maxPA (osub maxS st.shrinks)))).shrinks maxS
      · rw [if_pos hstop]
        exact ⟨hq2, hp2⟩
      · rw [if_neg hstop]
        have h22 : (applySingle st i (tryShrinkSingle prop st.args i
            (omin maxPA (osub maxS st.shrinks)))).args.length = n := by
          rw [applySingle_args_length, h2]
        obtain ⟨hqf, hpf⟩ := ih (i + 1) _ h22 hq2
        refine ⟨hqf, ?_⟩
        rcases hpf with hpf | hpf
        · rcases hp2 with hp2 | hp2
          · exact Or.inl (by rw [hpf, hp2])
          · exact Or.inr (by rw [hpf]; exact hp2)
        · exact Or.inr hpf
    · rw [if_neg hi]
      exact ⟨hq, Or.inl rfl⟩

/-- C2: in every shrink search, the shrinks field of the result equals the
exact number of property evaluations performed (the length of the ghost
evaluation list), those evaluations decompose per argument, the total
never exceeds a finite maxShrinks budget, each argument's evaluations
never exceed a finite maxShrinksPerArgument budget, the defaults are
unlimited total and one hundred per argument, and the returned
smallestFailingArgs reports the best (smallest) failing values found so
far: every recorded single-argument improvement is a tuple the property
actually fails on; the reported tuple is the original failing values or
itself a tuple the property fails on; every improved slot reports exactly
the improving search's shrunk value; and every unimproved or unprocessed
slot reports the original argument value. -/
theorem c2_shrink_budgets {alpha : Type} (prop : List alpha → PropOutcome)
    (args : List (Tree alpha)) (opts : ShrinkOptions) :
    ((shrink prop args opts).shrinks = (shrinkAux prop args opts).evals.length ∧
      ((shrinkAux prop args opts).singles.map (fun s => s.evals.length)).sum
        = (shrinkAux prop args opts).evals.length ∧
      (∀ s ∈ (shrinkAux prop args opts).singles, s.shrinks = s.evals.length)) ∧
    (∀ M, opts.maxShrinks = some M → (shrink prop args opts).shrinks ≤ M) ∧
    (∀ P, opts.maxShrinksPerArgument = some P →
      ∀ s ∈ (shrinkAux prop args opts).singles, s.shrinks ≤ P) ∧
    defaultShrinkOpts = ⟨none, some 100⟩ ∧
    (∀ s ∈ (shrinkAux prop args opts).singles, ∀ t, s.smallestFailingArgs = some t →
      (check (prop t)).isOk = false) ∧
    ((shrink prop args opts).smallestFailingArgs = args.map Tree.value ∨
      (check (prop (shrink prop args opts).smallestFailingArgs)).isOk = false) ∧
    (∀ (j : Nat) (s : SingleShrinkResult alpha),
      (shrinkAux prop args opts).singles[j]? = some s →
      (∀ sfa, s.smallestFailingArgs = some sfa →
        (shrink prop args opts).smallestFailingArgs[j]? = sfa.get? j) ∧
      (s.smallestFailingArgs = none →
        (shrink prop args opts).smallestFailingArgs[j]?
          = (args.map Tree.value)[j]?)) ∧
    (∀ j : Nat, (shrinkAux prop args opts).singles[j]? = none →
      (shrink prop args opts).smallestFailingArgs[j]? = (args.map Tree.value)[j]?) := by
  refine ⟨?_, ?_, ?_, rfl, ?_, ?_, ?_, ?_⟩
  · exact shrinkGo_counts prop opts.maxShrinks opts.maxShrinksPerArgument args.length
      args.length 0 _ (by simp) (by simp) (by simp)
  · intro M hM
    show (shrinkAux prop args opts).shrinks ≤ M
    unfold shrinkAux
    rw [hM]
    exact shrinkGo_budget prop opts.maxShrinksPerArgument args.length M args.length 0 _
      (by simp)
  · intro P hP
    unfold shrinkAux
    rw [hP]
    exact shrinkGo_perarg prop opts.maxShrinks args.length P args.length 0 _ (by simp)
  · unfold shrinkAux
    exact shrinkGo_single_fails prop opts.maxShrinks opts.maxShrinksPerArgument args.length
      args.length 0 _ (by simp)
  · show (shrinkAux prop args opts).smallestFailingArgs = args.map Tree.value ∨
      (check (prop (shrinkAux prop args opts).smallestFailingArgs)).isOk = false
    unfold shrinkAux
    exact (shrinkGo_reported prop opts.maxShrinks opts.maxShrinksPerArgument args.length
      args.length 0 _ rfl rfl).2
  · intro j s hs
    have hframe := shrinkGo_frame prop opts.maxShrinks opts.maxShrinksPerArgument args.length
      args.length 0 ⟨0, args.map Tree.value, args, [], []⟩ rfl rfl (by simp)
    unfold shrinkAux at hs
    obtain ⟨hsome, hnone⟩ := hframe.2 j (Nat.zero_le j) s hs
    constructor
    · intro sfa hsf
      show (shrinkAux prop args opts).smallestFailingArgs[j]? = sfa.get? j
      unfold shrinkAux
      exact (hsome sfa hsf).2.1
    · intro hsf
      show (shrinkAux prop args opts).smallestFailingArgs[j]? = (args.map Tree.value)[j]?
      unfold shrinkAux
      exact (hnone hsf).2
  · intro j hj
    show (shrinkAux prop args opts).smallestFailingArgs[j]? = (args.map Tree.value)[j]?
    unfold shrinkAux at hj ⊢
    exact shrinkGo_unprocessed prop opts.maxShrinks opts.maxShrinksPerArgument args.length
      args.length 0 ⟨0, args.map Tree.value, args, [], []⟩ rfl rfl (by simp) j hj

/-- C2 witness: shrinking a single deep chain argument under a total budget
of three and the default per-argument budget of one hundred performs
exactly three evaluations and respects both bounds. -/
theorem c2_shrink_budgets_witness :
    (shrink (fun _ => PropOutcome.ret (JsValue.bool false))
        [Tree.node (10 : Nat) [Tree.node 0 [Tree.node 1 [Tree.node 2 [Tree.node 3 []]]]]]
        ⟨some 3, some 100⟩).shrinks
      = (shrinkAux (fun _ => PropOutcome.ret (JsValue.bool false))
        [Tree.node (10 : Nat) [Tree.node 0 [Tree.node 1 [Tree.node 2 [Tree.node 3 []]]]]]
        ⟨some 3, some 100⟩).evals.length ∧
    (shrink (fun _ => PropOutcome.ret (JsValue.bool false))
        [Tree.node (10 : Nat) [Tree.node 0 [Tree.node 1 [Tree.node 2 [Tree.node 3 []]]]]]
        ⟨some 3, some 100⟩).shrinks ≤ 3 ∧
    (∀ s ∈ (shrinkAux (fun _ => PropOutcome.ret (JsValue.bool false))
        [Tree.node (10 : Nat) [Tree.node 0 [Tree.node 1 [Tree.node 2 [Tree.node 3 []]]]]]
        ⟨some 3, some 100⟩).singles, s.shrinks ≤ 100) ∧
    (shrink (fun _ => PropOutcome.ret (JsValue.bool false))
        [Tree.node (10 : Nat) [Tree.node 0 [Tree.node 1 [Tree.node 2 [Tree.node 3 []]]]]]
        ⟨some 3, some 100⟩).shrinks = 3 :=
  ⟨(c2_shrink_budgets (fun _ => PropOutcome.ret (JsValue.bool false))
      [Tree.node (10 : Nat) [Tree.node 0 [Tree.node 1 [Tree.node 2 [Tree.node 3 []]]]]]
      ⟨some 3, some 100⟩).1.1,
   (c2_shrink_budgets (fun _ => PropOutcome.ret (JsValue.bool false))
      [Tree.node (10 : Nat) [Tree.node 0 [Tree.node 1 [Tree.node 2 [Tree.node 3 []]]]]]
      ⟨some 3, some 100⟩).2.1 3 rfl,
   (c2_shrink_budgets (fun _ => PropOutcome.ret (JsValue.bool false))
      [Tree.node (10 : Nat) [Tree.node 0 [Tree.node 1 [Tree.node 2 [Tree.node 3 []]]]]]
      ⟨some 3, some 100⟩).2.2.1 100 rfl,
   by decide⟩



/-- C10: the shrink search mutates the caller-supplied argument array: for
every argument index whose single-argument search found a smaller failing
tuple, the entry at that index ends up as a pruned singleton holding the
shrunk value (the recorded smallest value for that argument), and in
particular differs from the caller's original tree there, which had a
non-empty child list; an index at which no smaller failing value was
found keeps the original tree. -/
theorem c10_shrink_mutates_args {alpha : Type} (prop : List alpha → PropOutcome)
    (args : List (Tree alpha)) (opts : ShrinkOptions) :
    (shrinkAux prop args opts).args.length = args.length ∧
    (∀ (j : Nat) (s : SingleShrinkResult alpha),
      (shrinkAux prop args opts).singles[j]? = some s →
      (∀ sfa, s.smallestFailingArgs = some sfa →
        (shrinkAux prop args opts).args[j]? = (sfa.get? j).map Tree.singleton ∧
        (shrinkAux prop args opts).smallestFailingArgs[j]? = sfa.get? j ∧
        (∃ t, args[j]? = some t ∧ t.children ≠ [] ∧
          (shrinkAux prop args opts).args[j]? ≠ some t)) ∧
      (s.smallestFailingArgs = none →
        (shrinkAux prop args opts).args[j]? = args[j]?)) := by
  unfold shrinkAux
  have hframe := shrinkGo_frame prop opts.maxShrinks opts.maxShrinksPerArgument args.length
    args.length 0 ⟨0, args.map Tree.value, args, [], []⟩ rfl rfl (by simp)
  constructor
  · exact shrinkGo_args_length prop opts.maxShrinks opts.maxShrinksPerArgument args.length
      args.length 0 _
  · intro j s hs
    obtain ⟨hsome, hnone⟩ := hframe.2 j (Nat.zero_le j) s hs
    constructor
    · intro sfa hsf
      obtain ⟨x1, x2, x3⟩ := hsome sfa hsf
      refine ⟨x1, x2, ?_⟩
      obtain ⟨t, ht, htc⟩ := x3
      refine ⟨t, ht, htc, ?_⟩
      intro hcontra
      rw [x1] at hcontra
      rcases hget : sfa.get? j with _ | v
      · rw [hget] at hcontra
        exact absurd hcontra (by simp)
      · rw [hget] at hcontra
        have : Tree.singleton v = t := by
          simpa using hcontra
        rw [← this] at htc
        exact htc rfl
    · intro hsf
      exact (hnone hsf).1

/-- C10 witness: shrinking a single argument whose tree has one failing
child zero replaces the caller's entry by the pruned singleton of zero,
distinct from the original two-node tree. -/
theorem c10_shrink_mutates_args_witness :
    (shrinkAux (fun _ => PropOutcome.ret (JsValue.bool false))
        [Tree.node (10 : Nat) [Tree.node 0 []]] ⟨none, some 100⟩).args[0]?
      = (([0] : List Nat).get? 0).map Tree.singleton ∧
    (∃ t, ([Tree.node (10 : Nat) [Tree.node 0 []]])[0]? = some t ∧ t.children ≠ [] ∧
      (shrinkAux (fun _ => PropOutcome.ret (JsValue.bool false))
        [Tree.node (10 : Nat) [Tree.node 0 []]] ⟨none, some 100⟩).args[0]? ≠ some t) := by
  have h := (c10_shrink_mutates_args (fun _ => PropOutcome.ret (JsValue.bool false))
      [Tree.node (10 : Nat) [Tree.node 0 []]] ⟨none, some 100⟩).2 0
      ⟨1, some [0], [[0]]⟩ (by decide)
  obtain ⟨hsome, _⟩ := h
  obtain ⟨x1, _, x3⟩ := hsome [0] rfl
  exact ⟨x1, x3⟩


/-! Splitting independence, claim C5.  The state transition and the jump
act linearly with respect to xor on 32-bit patterns; concrete inverse
matrices certify that the relevant differences have trivial kernel. -/

theorem shl32_xor (a b k : Nat) : shl32 (a ^^^ b) k = shl32 a k ^^^ shl32 b k := by
  unfold shl32
  apply Nat.eq_of_testBit_eq
  intro i
  have h32 : (4294967296 : Nat) = 2 ^ 32 := by norm_num
  rw [h32]
  rw [Nat.testBit_xor, Nat.testBit_mod_two_pow, Nat.testBit_mod_two_pow,
    Nat.testBit_mod_two_pow, Nat.testBit_shiftLeft, Nat.testBit_shiftLeft,
    Nat.testBit_shiftLeft, Nat.testBit_xor, Bool.and_xor_distrib_left,
    Bool.and_xor_distrib_left]

theorem shr_xor (a b k : Nat) : (a ^^^ b) >>> k = a >>> k ^^^ b >>> k := by
  apply Nat.eq_of_testBit_eq
  intro i
  simp [Nat.testBit_shiftRight, Nat.testBit_xor]

theorem mod32_xor (a b : Nat) : (a ^^^ b) % 4294967296 = a % 4294967296 ^^^ b % 4294967296 := by
  apply Nat.eq_of_testBit_eq
  intro i
  have h32 : (4294967296 : Nat) = 2 ^ 32 := by norm_num
  rw [h32]
  rw [Nat.testBit_xor, Nat.testBit_mod_two_pow, Nat.testBit_mod_two_pow,
    Nat.testBit_mod_two_pow, Nat.testBit_xor, Bool.and_xor_distrib_left]

theorem shiftLeft_xor (a b k : Nat) : (a ^^^ b) <<< k = a <<< k ^^^ b <<< k := by
  apply Nat.eq_of_testBit_eq
  intro i
  simp [Nat.testBit_shiftLeft, Nat.testBit_xor, Bool.and_xor_distrib_left]

theorem rot_eq_xor (x : Nat) (hx : x < 4294967296) :
    shl32 x 11 ||| x >>> 21 = shl32 x 11 ^^^ x >>> 21 := by
  unfold shl32
  apply Nat.eq_of_testBit_eq
  intro i
  have h32 : (4294967296 : Nat) = 2 ^ 32 := by norm_num
  rw [Nat.testBit_lor, Nat.testBit_xor]
  have hcase : ((x <<< 11) % 4294967296).testBit i = false ∨ (x >>> 21).testBit i = false := by
    by_cases hi : 11 ≤ i
    · right
      rw [Nat.testBit_shiftRight]
      apply Nat.testBit_lt_two_pow
      calc x < 4294967296 := hx
        _ = 2 ^ 32 := by norm_num
        _ ≤ 2 ^ (21 + i) := Nat.pow_le_pow_right (by norm_num) (by omega)
    · left
      rw [h32, Nat.testBit_mod_two_pow, Nat.testBit_shiftLeft]
      simp [hi]
  rcases hcase with h | h <;> rw [h] <;> cases hb : ((x <<< 11) % 4294967296).testBit i <;>
    cases hb2 : (x >>> 21).testBit i <;> simp_all

theorem rot_xor (x y : Nat) (hx : x < 4294967296) (hy : y < 4294967296) :
    shl32 (x ^^^ y) 11 ||| (x ^^^ y) >>> 21
      = (shl32 x 11 ||| x >>> 21) ^^^ (shl32 y 11 ||| y >>> 21) := by
  rw [rot_eq_xor _ (xor32_lt _ _ hx hy), rot_eq_xor _ hx, rot_eq_xor _ hy, shl32_xor, shr_xor]
  apply Nat.eq_of_testBit_eq
  intro i
  simp only [Nat.testBit_xor]
  cases shl32 x 11 |>.testBit i <;> cases shl32 y 11 |>.testBit i <;>
    cases x >>> 21 |>.testBit i <;> cases y >>> 21 |>.testBit i <;> rfl

theorem stepPat_valid (w : SeedPat) (h : validPat w) : validPat (stepPat w) := by
  obtain ⟨h0, h1, h2, h3⟩ := h
  refine ⟨xor32_lt _ _ h0 (xor32_lt _ _ h3 h1), xor32_lt _ _ h1 (xor32_lt _ _ h2 h0),
    Nat.mod_lt _ (by norm_num), or32_lt _ _ (Nat.mod_lt _ (by norm_num))
      (shr_lt _ _ (xor32_lt _ _ h3 h1))⟩

theorem xor_ac (a b c d : Nat) : (a ^^^ b) ^^^ (c ^^^ d) = (a ^^^ c) ^^^ (b ^^^ d) := by
  apply Nat.eq_of_testBit_eq
  intro i
  simp only [Nat.testBit_xor]
  cases a.testBit i <;> cases b.testBit i <;> cases c.testBit i <;> cases d.testBit i <;> rfl

theorem stepPat_xor4 (a b : SeedPat) (ha : validPat a) (hb : validPat b) :
    stepPat (xor4 a b) = xor4 (stepPat a) (stepPat b) := by
  obtain ⟨ha0, ha1, ha2, ha3⟩ := ha
  obtain ⟨hb0, hb1, hb2, hb3⟩ := hb
  unfold stepPat xor4
  refine Prod.ext ?_ (Prod.ext ?_ (Prod.ext ?_ ?_)) <;> simp only
  · rw [xor_ac a.2.2.2 b.2.2.2 a.2.1 b.2.1]
    exact xor_ac _ _ _ _
  · rw [xor_ac a.2.2.1 b.2.2.1 a.1 b.1]
    exact xor_ac _ _ _ _
  · exact shl32_xor _ _ _
  · rw [xor_ac a.2.2.2 b.2.2.2 a.2.1 b.2.1]
    exact rot_xor _ _ (xor32_lt _ _ ha3 ha1) (xor32_lt _ _ hb3 hb1)


theorem xor4_valid (a b : SeedPat) (ha : validPat a) (hb : validPat b) : validPat (xor4 a b) :=
  ⟨xor32_lt _ _ ha.1 hb.1, xor32_lt _ _ ha.2.1 hb.2.1, xor32_lt _ _ ha.2.2.1 hb.2.2.1,
   xor32_lt _ _ ha.2.2.2 hb.2.2.2⟩

theorem xor4_ac (a b c d : SeedPat) : xor4 (xor4 a b) (xor4 c d) = xor4 (xor4 a c) (xor4 b d) := by
  unfold xor4
  exact Prod.ext (xor_ac _ _ _ _) (Prod.ext (xor_ac _ _ _ _)
    (Prod.ext (xor_ac _ _ _ _) (xor_ac _ _ _ _)))

theorem jumpFoldPat_valid (j : Nat) (l : List Nat) :
    ∀ (acc st : SeedPat), validPat acc → validPat st →
      validPat ((l.foldl (fun p b =>
        if j.testBit b then
          ((p.1.1 ^^^ p.2.1, p.1.2.1 ^^^ p.2.2.1,
            p.1.2.2.1 ^^^ p.2.2.2.1, p.1.2.2.2 ^^^ p.2.2.2.2),
           stepPat p.2)
        else p) (acc, st)).1) ∧
      validPat ((l.foldl (fun p b =>
        if j.testBit b then
          ((p.1.1 ^^^ p.2.1, p.1.2.1 ^^^ p.2.2.1,
            p.1.2.2.1 ^^^ p.2.2.2.1, p.1.2.2.2 ^^^ p.2.2.2.2),
           stepPat p.2)
        else p) (acc, st)).2) := by
  induction l with
  | nil => intro acc st ha hs; exact ⟨ha, hs⟩
  | cons b bs ih =>
    intro acc st ha hs
    simp only [List.foldl_cons]
    by_cases hb : j.testBit b
    · simp only [hb, if_true]
      exact ih _ _ (xor4_valid acc st ha hs) (stepPat_valid st hs)
    · simp only [hb, Bool.false_eq_true, if_false]
      exact ih _ _ ha hs

theorem jumpFoldPat_linear (j : Nat) (l : List Nat) :
    ∀ (acc1 st1 acc2 st2 : SeedPat), validPat st1 → validPat st2 →
      l.foldl (fun p b =>
        if j.testBit b then
          ((p.1.1 ^^^ p.2.1, p.1.2.1 ^^^ p.2.2.1,
            p.1.2.2.1 ^^^ p.2.2.2.1, p.1.2.2.2 ^^^ p.2.2.2.2),
           stepPat p.2)
        else p) (xor4 acc1 acc2, xor4 st1 st2)
      = (xor4 (l.foldl (fun p b =>
          if j.testBit b then
            ((p.1.1 ^^^ p.2.1, p.1.2.1 ^^^ p.2.2.1,
              p.1.2.2.1 ^^^ p.2.2.2.1, p.1.2.2.2 ^^^ p.2.2.2.2),
             stepPat p.2)
          else p) (acc1, st1)).1 (l.foldl (fun p b =>
          if j.testBit b then
            ((p.1.1 ^^^ p.2.1, p.1.2.1 ^^^ p.2.2.1,
              p.1.2.2.1 ^^^ p.2.2.2.1, p.1.2.2.2 ^^^ p.2.2.2.2),
             stepPat p.2)
          else p) (acc2, st2)).1,
         xor4 (l.foldl (fun p b =>
          if j.testBit b then
            ((p.1.1 ^^^ p.2.1, p.1.2.1 ^^^ p.2.2.1,
              p.1.2.2.1 ^^^ p.2.2.2.1, p.1.2.2.2 ^^^ p.2.2.2.2),
             stepPat p.2)
          else p) (acc1, st1)).2 (l.foldl (fun p b =>
          if j.testBit b then
            ((p.1.1 ^^^ p.2.1, p.1.2.1 ^^^ p.2.2.1,
              p.1.2.2.1 ^^^ p.2.2.2.1, p.1.2.2.2 ^^^ p.2.2.2.2),
             stepPat p.2)
          else p) (acc2, st2)).2) := by
  induction l with
  | nil => intro acc1 st1 acc2 st2 h1 h2; rfl
  | cons b bs ih =>
    intro acc1 st1 acc2 st2 h1 h2
    simp only [List.foldl_cons]
    by_cases hb : j.testBit b
    · simp only [hb, if_true]
      have hstep : stepPat (xor4 st1 st2) = xor4 (stepPat st1) (stepPat st2) :=
        stepPat_xor4 st1 st2 h1 h2
      have hacc : ((xor4 acc1 acc2).1 ^^^ (xor4 st1 st2).1,
          (xor4 acc1 acc2).2.1 ^^^ (xor4 st1 st2).2.1,
          (xor4 acc1 acc2).2.2.1 ^^^ (xor4 st1 st2).2.2.1,
          (xor4 acc1 acc2).2.2.2 ^^^ (xor4 st1 st2).2.2.2)
          = xor4 (xor4 acc1 st1) (xor4 acc2 st2) := xor4_ac acc1 acc2 st1 st2
      rw [hacc, hstep]
      exact ih _ _ _ _ (stepPat_valid st1 h1) (stepPat_valid st2 h2)
    · simp only [hb, Bool.false_eq_true, if_false]
      exact ih _ _ _ _ h1 h2

theorem jumpLoopPat_valid (j : Nat) (acc st : SeedPat) (ha : validPat acc) (hs : validPat st) :
    validPat (jumpLoopPat j acc st).1 ∧ validPat (jumpLoopPat j acc st).2 :=
  jumpFoldPat_valid j (List.range 32) acc st ha hs

theorem jumpLoopPat_linear (j : Nat) (acc1 st1 acc2 st2 : SeedPat)
    (h1 : validPat st1) (h2 : validPat st2) :
    jumpLoopPat j (xor4 acc1 acc2) (xor4 st1 st2)
      = (xor4 (jumpLoopPat j acc1 st1).1 (jumpLoopPat j acc2 st2).1,
         xor4 (jumpLoopPat j acc1 st1).2 (jumpLoopPat j acc2 st2).2) :=
  jumpFoldPat_linear j (List.range 32) acc1 st1 acc2 st2 h1 h2

theorem zero4_valid : validPat ((0, 0, 0, 0) : SeedPat) := by
  unfold validPat
  norm_num

theorem xor4_zero : xor4 (0, 0, 0, 0) (0, 0, 0, 0) = ((0, 0, 0, 0) : SeedPat) := by decide

theorem jumpPat_valid (w : SeedPat) (h : validPat w) : validPat (jumpPat w) := by
  unfold jumpPat
  have p0 := jumpLoopPat_valid j0 (0, 0, 0, 0) w zero4_valid h
  have p1 := jumpLoopPat_valid j1 _ _ p0.1 p0.2
  have p2 := jumpLoopPat_valid j2 _ _ p1.1 p1.2
  have p3 := jumpLoopPat_valid j3 _ _ p2.1 p2.2
  exact p3.1

theorem jumpPat_xor4 (a b : SeedPat) (ha : validPat a) (hb : validPat b) :
    jumpPat (xor4 a b) = xor4 (jumpPat a) (jumpPat b) := by
  unfold jumpPat
  dsimp only
  have q0a := jumpLoopPat_valid j0 (0, 0, 0, 0) a zero4_valid ha
  have q0b := jumpLoopPat_valid j0 (0, 0, 0, 0) b zero4_valid hb
  have e0 : jumpLoopPat j0 (0, 0, 0, 0) (xor4 a b)
      = (xor4 (jumpLoopPat j0 (0, 0, 0, 0) a).1 (jumpLoopPat j0 (0, 0, 0, 0) b).1,
         xor4 (jumpLoopPat j0 (0, 0, 0, 0) a).2 (jumpLoopPat j0 (0, 0, 0, 0) b).2) := by
    rw [← xor4_zero]
    exact jumpLoopPat_linear j0 _ a _ b ha hb
  rw [e0]
  dsimp only
  have q1a := jumpLoopPat_valid j1 _ _ q0a.1 q0a.2
  have q1b := jumpLoopPat_valid j1 _ _ q0b.1 q0b.2
  rw [jumpLoopPat_linear j1 _ _ _ _ q0a.2 q0b.2]
  dsimp only
  have q2a := jumpLoopPat_valid j2 _ _ q1a.1 q1a.2
  have q2b := jumpLoopPat_valid j2 _ _ q1b.1 q1b.2
  rw [jumpLoopPat_linear j2 _ _ _ _ q1a.2 q1b.2]
  dsimp only
  rw [jumpLoopPat_linear j3 _ _ _ _ q2a.2 q2b.2]


theorem testBit_high (x k : Nat) (hx : x < 4294967296) (hk : 32 ≤ k) : x.testBit k = false := by
  apply Nat.testBit_lt_two_pow
  calc x < 4294967296 := hx
    _ = 2 ^ 32 := by norm_num
    _ ≤ 2 ^ k := Nat.pow_le_pow_right (by norm_num) hk

theorem pk_testBit (w : SeedPat) (h : validPat w) (i : Nat) :
    (pk w).testBit i =
      (if i < 32 then w.1.testBit i
       else if i < 64 then w.2.1.testBit (i - 32)
       else if i < 96 then w.2.2.1.testBit (i - 64)
       else w.2.2.2.testBit (i - 96)) := by
  obtain ⟨h0, h1, h2, h3⟩ := h
  unfold pk
  rw [Nat.testBit_xor, Nat.testBit_xor, Nat.testBit_xor,
    Nat.testBit_shiftLeft, Nat.testBit_shiftLeft, Nat.testBit_shiftLeft]
  by_cases c1 : i < 32
  · rw [decide_eq_false (by omega : ¬ 32 ≤ i), decide_eq_false (by omega : ¬ 64 ≤ i),
      decide_eq_false (by omega : ¬ 96 ≤ i), if_pos c1]
    simp
  · by_cases c2 : i < 64
    · rw [decide_eq_true (by omega : 32 ≤ i), decide_eq_false (by omega : ¬ 64 ≤ i),
        decide_eq_false (by omega : ¬ 96 ≤ i), if_neg c1, if_pos c2,
        testBit_high w.1 i h0 (by omega)]
      simp
    · by_cases c3 : i < 96
      · rw [decide_eq_true (by omega : 32 ≤ i), decide_eq_true (by omega : 64 ≤ i),
          decide_eq_false (by omega : ¬ 96 ≤ i), if_neg c1, if_neg c2, if_pos c3,
          testBit_high w.1 i h0 (by omega), testBit_high w.2.1 (i - 32) h1 (by omega)]
        simp
      · rw [decide_eq_true (by omega : 32 ≤ i), decide_eq_true (by omega : 64 ≤ i),
          decide_eq_true (by omega : 96 ≤ i), if_neg c1, if_neg c2, if_neg c3,
          testBit_high w.1 i h0 (by omega), testBit_high w.2.1 (i - 32) h1 (by omega),
          testBit_high w.2.2.1 (i - 64) h2 (by omega)]
        simp

theorem pk_xor (a b : SeedPat) : pk (xor4 a b) = pk a ^^^ pk b := by
  unfold pk xor4
  dsimp only
  rw [shiftLeft_xor, shiftLeft_xor, shiftLeft_xor]
  apply Nat.eq_of_testBit_eq
  intro i
  simp only [Nat.testBit_xor]
  cases a.1.testBit i <;> cases b.1.testBit i <;>
    cases (a.2.1 <<< 32).testBit i <;> cases (b.2.1 <<< 32).testBit i <;>
    cases (a.2.2.1 <<< 64).testBit i <;> cases (b.2.2.1 <<< 64).testBit i <;>
    cases (a.2.2.2 <<< 96).testBit i <;> cases (b.2.2.2 <<< 96).testBit i <;> rfl

theorem upk_xor (x y : Nat) : upk (x ^^^ y) = xor4 (upk x) (upk y) := by
  unfold upk xor4
  refine Prod.ext ?_ (Prod.ext ?_ (Prod.ext ?_ ?_)) <;> dsimp only
  · exact mod32_xor x y
  · rw [shr_xor, mod32_xor]
  · rw [shr_xor, mod32_xor]
  · exact shr_xor x y 96

theorem upk_pk (w : SeedPat) (h : validPat w) : upk (pk w) = w := by
  obtain ⟨h0, h1, h2, h3⟩ := h
  have h32 : (4294967296 : Nat) = 2 ^ 32 := by norm_num
  unfold upk
  have e0 : pk w % 4294967296 = w.1 := by
    apply Nat.eq_of_testBit_eq
    intro i
    rw [h32, Nat.testBit_mod_two_pow, pk_testBit w ⟨h0, h1, h2, h3⟩ i]
    by_cases c1 : i < 32
    · rw [decide_eq_true c1, if_pos c1]
      simp
    · rw [decide_eq_false c1, if_neg c1, testBit_high w.1 i h0 (by omega)]
      by_cases c2 : i < 64
      · simp [c2]
      · by_cases c3 : i < 96 <;> simp [c2, c3]
  have e1 : pk w >>> 32 % 4294967296 = w.2.1 := by
    apply Nat.eq_of_testBit_eq
    intro i
    rw [h32, Nat.testBit_mod_two_pow, Nat.testBit_shiftRight,
      pk_testBit w ⟨h0, h1, h2, h3⟩ (32 + i)]
    by_cases c1 : i < 32
    · rw [decide_eq_true c1, if_neg (by omega : ¬ 32 + i < 32),
        if_pos (by omega : 32 + i < 64), (by omega : 32 + i - 32 = i)]
      simp
    · rw [decide_eq_false c1, testBit_high w.2.1 i h1 (by omega)]
      simp
  have e2 : pk w >>> 64 % 4294967296 = w.2.2.1 := by
    apply Nat.eq_of_testBit_eq
    intro i
    rw [h32, Nat.testBit_mod_two_pow, Nat.testBit_shiftRight,
      pk_testBit w ⟨h0, h1, h2, h3⟩ (64 + i)]
    by_cases c1 : i < 32
    · rw [decide_eq_true c1, if_neg (by omega : ¬ 64 + i < 32),
        if_neg (by omega : ¬ 64 + i < 64), if_pos (by omega : 64 + i < 96),
        (by omega : 64 + i - 64 = i)]
      simp
    · rw [decide_eq_false c1, testBit_high w.2.2.1 i h2 (by omega)]
      simp
  have e3 : pk w >>> 96 = w.2.2.2 := by
    apply Nat.eq_of_testBit_eq
    intro i
    rw [Nat.testBit_shiftRight, pk_testBit w ⟨h0, h1, h2, h3⟩ (96 + i),
      if_neg (by omega : ¬ 96 + i < 32), if_neg (by omega : ¬ 96 + i < 64),
      if_neg (by omega : ¬ 96 + i < 96), (by omega : 96 + i - 96 = i)]
  rw [e0, e1, e2, e3]

theorem pk_lt (w : SeedPat) (h : validPat w) :
    pk w < 340282366920938463463374607431768211456 := by
  obtain ⟨h0, h1, h2, h3⟩ := h
  have hN : (340282366920938463463374607431768211456 : Nat) = 2 ^ 128 := by norm_num
  have h32 : (4294967296 : Nat) = 2 ^ 32 := by norm_num
  rw [hN]
  unfold pk
  have b0 : w.1 < 2 ^ 128 := by
    calc w.1 < 4294967296 := h0
      _ ≤ 2 ^ 128 := by norm_num
  have b1 : w.2.1 <<< 32 < 2 ^ 128 := by
    have hx : w.2.1 <<< 32 < 2 ^ (32 + 32) := Nat.shiftLeft_lt (by omega)
    calc w.2.1 <<< 32 < 2 ^ 64 := hx
      _ ≤ 2 ^ 128 := by norm_num
  have b2 : w.2.2.1 <<< 64 < 2 ^ 128 := by
    have hx : w.2.2.1 <<< 64 < 2 ^ (32 + 64) := Nat.shiftLeft_lt (by omega)
    calc w.2.2.1 <<< 64 < 2 ^ 96 := hx
      _ ≤ 2 ^ 128 := by norm_num
  have b3 : w.2.2.2 <<< 96 < 2 ^ 128 := Nat.shiftLeft_lt (by omega)
  exact Nat.xor_lt_two_pow (Nat.xor_lt_two_pow (Nat.xor_lt_two_pow b0 b1) b2) b3

theorem upk_valid (x : Nat) (hx : x < 340282366920938463463374607431768211456) :
    validPat (upk x) := by
  unfold upk validPat
  refine ⟨Nat.mod_lt _ (by norm_num), Nat.mod_lt _ (by norm_num),
    Nat.mod_lt _ (by norm_num), ?_⟩
  have hdiv : x >>> 96 = x / 2 ^ 96 := Nat.shiftRight_eq_div_pow x 96
  rw [hdiv]
  apply Nat.div_lt_of_lt_mul
  calc x < 340282366920938463463374607431768211456 := hx
    _ = 2 ^ 96 * 4294967296 := by norm_num

theorem upk_zero : upk 0 = ((0, 0, 0, 0) : SeedPat) := by decide

theorem pk_eq_zero (w : SeedPat) (h : validPat w) (hz : pk w = 0) : w = (0, 0, 0, 0) := by
  have := upk_pk w h
  rw [hz, upk_zero] at this
  exact this.symm


theorem combine_zero (g : Nat → Nat) (k : Nat) : combine g k 0 = 0 := by
  induction k with
  | zero => rfl
  | succ k ih => simp [combine, ih, Nat.zero_testBit]

theorem combine_congr_g (g g2 : Nat → Nat) (k x : Nat) (h : ∀ i, i < k → g i = g2 i) :
    combine g k x = combine g2 k x := by
  induction k with
  | zero => rfl
  | succ k ih =>
    simp only [combine]
    rw [ih (fun i hi => h i (by omega)), h k (by omega)]

theorem combine_congr_x (g : Nat → Nat) (k x y : Nat)
    (h : ∀ i, i < k → x.testBit i = y.testBit i) : combine g k x = combine g k y := by
  induction k with
  | zero => rfl
  | succ k ih =>
    simp only [combine]
    rw [ih (fun i hi => h i (by omega)), h k (by omega)]

theorem combine_xor (g : Nat → Nat) (k x y : Nat) :
    combine g k (x ^^^ y) = combine g k x ^^^ combine g k y := by
  induction k with
  | zero => simp [combine]
  | succ k ih =>
    simp only [combine, Nat.testBit_xor, ih]
    rw [xor_ac]
    congr 1
    cases hx : x.testBit k <;> cases hy : y.testBit k <;> simp

theorem bit_split (k x : Nat) (h : x < 2 ^ (k + 1)) :
    x = x % 2 ^ k ^^^ (if x.testBit k then 2 ^ k else 0) := by
  apply Nat.eq_of_testBit_eq
  intro i
  rw [Nat.testBit_xor, Nat.testBit_mod_two_pow]
  by_cases ci : i < k
  · rw [decide_eq_true ci]
    have hki : ¬ k = i := by omega
    have hp : (if x.testBit k then 2 ^ k else 0).testBit i = false := by
      cases htk : x.testBit k <;> simp [Nat.testBit_two_pow, hki]
    rw [hp]
    simp
  · by_cases ce : i = k
    · subst ce
      rw [decide_eq_false (by omega)]
      have hp : (if x.testBit i then 2 ^ i else 0).testBit i = x.testBit i := by
        cases htk : x.testBit i <;> simp [Nat.testBit_two_pow]
      rw [hp]
      simp
    · have hx : x.testBit i = false :=
        Nat.testBit_lt_two_pow (lt_of_lt_of_le h (Nat.pow_le_pow_right (by norm_num) (by omega)))
      rw [hx, decide_eq_false ci]
      have hki : ¬ k = i := by omega
      have hp : (if x.testBit k then 2 ^ k else 0).testBit i = false := by
        cases htk : x.testBit k <;> simp [Nat.testBit_two_pow, hki]
      rw [hp]
      simp

theorem linear_decomp (F : Nat → Nat) (N : Nat)
    (hlin : ∀ a b, a < 2 ^ N → b < 2 ^ N → F (a ^^^ b) = F a ^^^ F b)
    (h0 : F 0 = 0) :
    ∀ k, k ≤ N → ∀ x, x < 2 ^ k → F x = combine (fun i => F (2 ^ i)) k x := by
  intro k
  induction k with
  | zero =>
    intro _ x hx
    have hx0 : x = 0 := by omega
    subst hx0
    rw [h0]
    rfl
  | succ k ih =>
    intro hk x hx
    have hlo : x % 2 ^ k < 2 ^ k := Nat.mod_lt _ (by positivity)
    have hloN : x % 2 ^ k < 2 ^ N :=
      lt_of_lt_of_le hlo (Nat.pow_le_pow_right (by norm_num) (by omega))
    have hhiN : (if x.testBit k then 2 ^ k else 0) < 2 ^ N := by
      cases htk : x.testBit k
      · show (0 : Nat) < 2 ^ N
        positivity
      · show (2 : Nat) ^ k < 2 ^ N
        exact Nat.pow_lt_pow_right (by norm_num) (by omega)
    conv_lhs => rw [bit_split k x hx]
    rw [hlin _ _ hloN hhiN, ih (by omega) _ hlo]
    have hcx : combine (fun i => F (2 ^ i)) k (x % 2 ^ k) = combine (fun i => F (2 ^ i)) k x := by
      apply combine_congr_x
      intro i hi
      rw [Nat.testBit_mod_two_pow, decide_eq_true hi]
      simp
    rw [hcx]
    have hhi : F (if x.testBit k then 2 ^ k else 0) = (if x.testBit k then F (2 ^ k) else 0) := by
      cases htk : x.testBit k <;> simp [h0]
    rw [hhi]
    rfl

theorem kernel_trivial (F g : Nat → Nat) (N : Nat)
    (hlin : ∀ a b, a < 2 ^ N → b < 2 ^ N → F (a ^^^ b) = F a ^^^ F b)
    (h0 : F 0 = 0)
    (hcert : ∀ i, i < N → combine g N (F (2 ^ i)) = 2 ^ i) :
    ∀ x, x < 2 ^ N → x ≠ 0 → F x ≠ 0 := by
  intro x hx hnz hFx
  have hGlin : ∀ a b, a < 2 ^ N → b < 2 ^ N →
      combine g N (F (a ^^^ b)) = combine g N (F a) ^^^ combine g N (F b) := by
    intro a b ha hb
    rw [hlin a b ha hb, combine_xor]
  have hG0 : combine g N (F 0) = 0 := by rw [h0, combine_zero]
  have hdec := linear_decomp (fun y => combine g N (F y)) N hGlin hG0 N le_rfl x hx
  have hid := linear_decomp (fun y => y) N (fun a b _ _ => rfl) rfl N le_rfl x hx
  have hgx : combine (fun i => combine g N (F (2 ^ i))) N x = combine (fun i => 2 ^ i) N x :=
    combine_congr_g _ _ N x (fun i hi => hcert i hi)
  have hfinal : combine g N (F x) = x := by
    dsimp only at hdec hid hgx
    rw [hdec, hgx, ← hid]
  rw [hFx, combine_zero] at hfinal
  exact hnz hfinal.symm

/-- The state transition on seed states corresponds exactly to the state
transition on pattern quadruples. -/
theorem patQuad_step (s : SeedState) : patQuad (step s) = stepPat (patQuad s) := by
  show patQuad (xoshiro128ss s).1 = stepPat (patQuad s)
  refine Prod.ext ?_ (Prod.ext ?_ (Prod.ext ?_ ?_))
  · show pat (jsXor s.1 (jsXor s.2.2.2 s.2.1)) = pat s.1 ^^^ (pat s.2.2.2 ^^^ pat s.2.1)
    rw [pat_jsXor, pat_jsXor]
  · show pat (jsXor s.2.1 (jsXor s.2.2.1 s.1)) = pat s.2.1 ^^^ (pat s.2.2.1 ^^^ pat s.1)
    rw [pat_jsXor, pat_jsXor]
  · show pat (jsShl s.1 9) = (pat s.1 <<< 9) % 4294967296
    exact pat_jsShl s.1 9
  · show pat (jsOr (jsShl (jsXor s.2.2.2 s.2.1) 11) (jsShrU (jsXor s.2.2.2 s.2.1) 21))
      = ((pat s.2.2.2 ^^^ pat s.2.1) <<< 11) % 4294967296 ||| (pat s.2.2.2 ^^^ pat s.2.1) >>> 21
    rw [pat_jsOr, pat_jsShl, pat_jsShrU, pat_jsXor]

/-- One iteration of the jump loop corresponds on pattern quadruples. -/
theorem pq2_jstep (j : Nat) (b : Nat) (p : SeedState × SeedState) :
    pq2 (if j.testBit b then
        ((jsXor p.1.1 p.2.1, jsXor p.1.2.1 p.2.2.1,
          jsXor p.1.2.2.1 p.2.2.2.1, jsXor p.1.2.2.2 p.2.2.2.2), step p.2)
      else p)
    = (if j.testBit b then
        (((pq2 p).1.1 ^^^ (pq2 p).2.1, (pq2 p).1.2.1 ^^^ (pq2 p).2.2.1,
          (pq2 p).1.2.2.1 ^^^ (pq2 p).2.2.2.1, (pq2 p).1.2.2.2 ^^^ (pq2 p).2.2.2.2),
         stepPat (pq2 p).2)
      else pq2 p) := by
  by_cases hb : j.testBit b
  · rw [if_pos hb, if_pos hb]
    refine Prod.ext ?_ (patQuad_step p.2)
    show (pat (jsXor p.1.1 p.2.1), pat (jsXor p.1.2.1 p.2.2.1),
        pat (jsXor p.1.2.2.1 p.2.2.2.1), pat (jsXor p.1.2.2.2 p.2.2.2.2))
      = (pat p.1.1 ^^^ pat p.2.1, pat p.1.2.1 ^^^ pat p.2.2.1,
        pat p.1.2.2.1 ^^^ pat p.2.2.2.1, pat p.1.2.2.2 ^^^ pat p.2.2.2.2)
    rw [pat_jsXor, pat_jsXor, pat_jsXor, pat_jsXor]
  · rw [if_neg hb, if_neg hb]

/-- The jump loop on seed states corresponds to the jump loop on pattern
quadruples. -/
theorem pq2_jumpLoop (j : Nat) (acc st : SeedState) :
    pq2 (jumpLoop j acc st) = jumpLoopPat j (patQuad acc) (patQuad st) := by
  unfold jumpLoop jumpLoopPat
  have hinit : ((patQuad acc, patQuad st) : SeedPat × SeedPat) = pq2 (acc, st) := rfl
  rw [hinit]
  generalize (acc, st) = p
  generalize List.range 32 = l
  induction l generalizing p with
  | nil => rfl
  | cons b t ih =>
    rw [List.foldl_cons, List.foldl_cons, ih]
    congr 1
    exact pq2_jstep j b p

/-- The jump function on seed states corresponds to the jump function on
pattern quadruples. -/
theorem patQuad_jump (s : SeedState) : patQuad (jump s) = jumpPat (patQuad s) := by
  have hstep : ∀ (p : SeedState × SeedState) (q : SeedPat × SeedPat), pq2 p = q →
      ∀ j, pq2 (jumpLoop j p.1 p.2) = jumpLoopPat j q.1 q.2 := by
    intro p q hq j
    subst hq
    rw [pq2_jumpLoop j p.1 p.2]
    rfl
  have hz : patQuad ((0, 0, 0, 0) : SeedState) = ((0, 0, 0, 0) : SeedPat) := by decide
  have h0 : pq2 (jumpLoop j0 (0, 0, 0, 0) s) = jumpLoopPat j0 (0, 0, 0, 0) (patQuad s) := by
    rw [pq2_jumpLoop j0 (0, 0, 0, 0) s, hz]
  have h1 := hstep _ _ h0 j1
  have h2 := hstep _ _ h1 j2
  have h3 := hstep _ _ h2 j3
  exact congrArg Prod.fst h3

theorem two_pow_128_eq : (2 : Nat) ^ 128 = 340282366920938463463374607431768211456 := by
  norm_num

/-- The packed state transition is xor-linear on 128-bit patterns. -/
theorem stepN_xor (x y : Nat) (hx : x < 2 ^ 128) (hy : y < 2 ^ 128) :
    stepN (x ^^^ y) = stepN x ^^^ stepN y := by
  unfold stepN
  rw [upk_xor, stepPat_xor4 _ _ (upk_valid x (two_pow_128_eq ▸ hx))
    (upk_valid y (two_pow_128_eq ▸ hy)), pk_xor]

/-- The packed jump map is xor-linear on 128-bit patterns. -/
theorem jumpN_xor (x y : Nat) (hx : x < 2 ^ 128) (hy : y < 2 ^ 128) :
    jumpN (x ^^^ y) = jumpN x ^^^ jumpN y := by
  unfold jumpN
  rw [upk_xor, jumpPat_xor4 _ _ (upk_valid x (two_pow_128_eq ▸ hx))
    (upk_valid y (two_pow_128_eq ▸ hy)), pk_xor]

theorem stepN_zero : stepN 0 = 0 := by decide

theorem jumpN_zero : jumpN 0 = 0 := by decide

/-- The map step-xor-identity is xor-linear on 128-bit patterns. -/
theorem stepXorId_xor (x y : Nat) (hx : x < 2 ^ 128) (hy : y < 2 ^ 128) :
    stepXorId (x ^^^ y) = stepXorId x ^^^ stepXorId y := by
  unfold stepXorId
  rw [stepN_xor x y hx hy]
  exact xor_ac _ _ _ _

theorem stepXorId_zero : stepXorId 0 = 0 := by
  unfold stepXorId
  rw [stepN_zero]
  decide

/-- The map jump-xor-step is xor-linear on 128-bit patterns. -/
theorem jumpXorStep_xor (x y : Nat) (hx : x < 2 ^ 128) (hy : y < 2 ^ 128) :
    jumpXorStep (x ^^^ y) = jumpXorStep x ^^^ jumpXorStep y := by
  unfold jumpXorStep
  rw [jumpN_xor x y hx hy, stepN_xor x y hx hy]
  exact xor_ac _ _ _ _

theorem jumpXorStep_zero : jumpXorStep 0 = 0 := by
  unfold jumpXorStep
  rw [jumpN_zero, stepN_zero]
  decide

/-- Every pattern quadruple of a seed state is made of 32-bit words. -/
theorem patQuad_valid (s : SeedState) : validPat (patQuad s) :=
  ⟨pat_lt _, pat_lt _, pat_lt _, pat_lt _⟩

set_option maxRecDepth 10000 in
/-- Certificate check: the concrete inverse matrix for step-xor-identity
inverts it on all 128 basis vectors. -/
theorem stepIdInv_cert : ∀ i, i < 128 → stepIdInv (stepXorId (2 ^ i)) = 2 ^ i := by decide

set_option maxRecDepth 10000 in
/-- Certificate check: the concrete inverse matrix for jump-xor-step
inverts it on all 128 basis vectors. -/
theorem jumpStepInv_cert : ∀ i, i < 128 → jumpStepInv (jumpXorStep (2 ^ i)) = 2 ^ i := by decide

/-- The state transition differs from the identity on every nonzero
128-bit pattern: step-xor-identity has trivial kernel. -/
theorem stepXorId_ne_zero (x : Nat) (hx : x < 2 ^ 128) (hnz : x ≠ 0) : stepXorId x ≠ 0 :=
  kernel_trivial stepXorId (colFn stepIdInvCols) 128 stepXorId_xor stepXorId_zero
    (fun i hi => stepIdInv_cert i hi) x hx hnz

/-- The jump map differs from the state transition on every nonzero
128-bit pattern: jump-xor-step has trivial kernel. -/
theorem jumpXorStep_ne_zero (x : Nat) (hx : x < 2 ^ 128) (hnz : x ≠ 0) : jumpXorStep x ≠ 0 :=
  kernel_trivial jumpXorStep (colFn jumpStepInvCols) 128 jumpXorStep_xor jumpXorStep_zero
    (fun i hi => jumpStepInv_cert i hi) x hx hnz

/-- On nonzero 32-bit pattern quadruples, the state transition has no
fixed point. -/
theorem stepPat_ne_self (w : SeedPat) (hv : validPat w) (hnz : w ≠ (0, 0, 0, 0)) :
    stepPat w ≠ w := by
  intro he
  have hx : pk w < 2 ^ 128 := by
    rw [two_pow_128_eq]
    exact pk_lt w hv
  have hxnz : pk w ≠ 0 := fun h => hnz (pk_eq_zero w hv h)
  apply stepXorId_ne_zero (pk w) hx hxnz
  unfold stepXorId stepN
  rw [upk_pk w hv, he, Nat.xor_self]

/-- On nonzero 32-bit pattern quadruples, the jump map never agrees with
the state transition. -/
theorem jumpPat_ne_stepPat (w : SeedPat) (hv : validPat w) (hnz : w ≠ (0, 0, 0, 0)) :
    jumpPat w ≠ stepPat w := by
  intro he
  have hx : pk w < 2 ^ 128 := by
    rw [two_pow_128_eq]
    exact pk_lt w hv
  have hxnz : pk w ≠ 0 := fun h => hnz (pk_eq_zero w hv h)
  apply jumpXorStep_ne_zero (pk w) hx hxnz
  unfold jumpXorStep jumpN stepN
  rw [upk_pk w hv, he, Nat.xor_self]

set_option maxRecDepth 8000 in
/-- C5, counterexample: the claim says that for every seed state the two
outputs of split are unequal to each other and each unequal to the input
state. The all-zero state is a fixed point of both outputs of split, and
the state [0, 1, 1, 1] is a fixed point of the second output (the jump
half), refuting the claim for literally supplied states. -/
theorem c5_counterexample :
    split ((0 : Int), 0, 0, 0) = (((0 : Int), 0, 0, 0), ((0 : Int), 0, 0, 0)) ∧
      (split ((0 : Int), 1, 1, 1)).2 = ((0 : Int), 1, 1, 1) := by decide

/-- C5, amended: for every seed state whose quadruple of 32-bit patterns is
nonzero, the first output of split differs from the input state, and the
two outputs of split differ from each other. (The second output can still
coincide with the input: jump fixes every state with pattern [0, w, w, w].) -/
theorem c5_amended (s : SeedState) (h : patQuad s ≠ (0, 0, 0, 0)) :
    (split s).1 ≠ s ∧ (split s).1 ≠ (split s).2 := by
  constructor
  · intro he
    have he' : step s = s := he
    exact stepPat_ne_self (patQuad s) (patQuad_valid s) h
      (by rw [← patQuad_step, he'])
  · intro he
    have he' : jump s = step s := he.symm
    exact jumpPat_ne_stepPat (patQuad s) (patQuad_valid s) h
      (by rw [← patQuad_jump, ← patQuad_step, he'])

/-- Witness for the amended C5 at the concrete seed state (1, 2, 3, 4). -/
theorem c5_amended_witness :
    patQuad ((1 : Int), 2, 3, 4) ≠ (0, 0, 0, 0) ∧
      ((split ((1 : Int), 2, 3, 4)).1 ≠ ((1 : Int), 2, 3, 4) ∧
        (split ((1 : Int), 2, 3, 4)).1 ≠ (split ((1 : Int), 2, 3, 4)).2) :=
  ⟨by decide, c5_amended ((1 : Int), 2, 3, 4) (by decide)⟩

end Propcheck
